import Mathlib

/-! Facebook marketing API SDK: resilient transport, batch codec and error model.

A shallow embedding of `fb/transport_retry.go` and `fb/types.go`.

* Go `error` interface values are `Option GoError` (`none` is the nil interface).
* Pointers are `Option`s (`none` is the nil pointer).
* `time.Duration` and clock readings are natural numbers of nanoseconds.
* The delegate transport, the wall clock and the random source are the
  environment: they are explicit parameters of the model.
* A Go `string` that the batch encoder reads (`Method`, `Path`, the keys and
  values of the parameter set) is a list of bytes (`GoString`), valid UTF-8 or
  not; the text that `json.Marshal` writes is a `String`, which stands for the
  bytes of its UTF-8 encoding.
* The libraries the two files call (`github.com/cenk/backoff`, `encoding/json`,
  `net/url`, `io`) are modelled next to the code that calls them, function by
  function, under the names they have in Go.
-/

namespace fb

/-! ## JSON values (the data `encoding/json` reads and writes) -/

/-- A JSON document. A number keeps its literal text, members keep their
textual order. -/
inductive Json where
  | null
  | bool (b : Bool)
  | num (lit : String)
  | str (s : String)
  | arr (items : List Json)
  | obj (members : List (String × Json))

/-! ## Error model (`types.go`) -/

/-- The struct `Error`. `Code` and `ErrorSubcode` are `uint64`; `ErrorData`
is a `json.RawMessage`, kept as the JSON value its text denotes (`none` when
the member was never seen). The Go field `Type` is spelled `Type_` because
`Type` is reserved. -/
structure Error where
  Message : String
  Type_ : String
  Code : Nat
  ErrorSubcode : Nat
  FbtraceID : String
  IsTransient : Bool
  ErrorUserTitle : String
  ErrorUserMsg : String
  ErrorData : Option Json

/-- A non-nil value of the Go interface `error`, by dynamic type.
`fbError p` has dynamic type `*Error` (the pointer `p` itself may be nil),
`errorString` is what `fmt.Errorf` and `errors.New` build,
`contextCanceled` and `deadlineExceeded` are the two errors of package
`context`, `jsonSyntax` and `jsonType` are `*json.SyntaxError` and
`*json.UnmarshalTypeError`, `permanent err` is a `*backoff.PermanentError`
whose field `Err` is `err` (possibly nil), `other` is any other dynamic
type. -/
inductive GoError where
  | fbError (p : Option Error)
  | errorString (msg : String)
  | contextCanceled
  | deadlineExceeded
  | jsonSyntax
  | jsonType (value : String)
  | permanent (err : Option GoError)
  | other (desc : String)

/-- The type assertion `err.(*backoff.PermanentError)`: the field `Err` of
the permanent error when the assertion succeeds. -/
def GoError.asPermanent : GoError → Option (Option GoError)
  | .permanent err => some err
  | _ => none

/-- Whether an error is one of the two cancellation errors of package
`context` (`context.Canceled`, `context.DeadlineExceeded`). -/
def GoError.isCancellation : GoError → Bool
  | .contextCanceled => true
  | .deadlineExceeded => true
  | _ => false

/-! ## HTTP types (`net/http`) -/

/-- A response body as a stream: `io.ReadAll` yields `data` together with
`readErr` (nil when the stream ends cleanly). -/
structure Body where
  data : String
  readErr : Option GoError

/-- The function `io.ReadAll`. -/
def ReadAll (b : Body) : String × Option GoError := (b.data, b.readErr)

/-- The fields of `http.Response` that `RoundTrip` looks at. -/
structure Response where
  StatusCode : Int
  Status : String
  Body : Body

/-- A `context.Context`, seen from one run. `doneAt` is the instant (in
nanoseconds after `RoundTrip` was entered) at which the context is
cancelled, `none` if that never happens; `deadline` is the instant that
`ctx.Deadline()` reports, `none` if the context has no deadline. The context
is done from the earlier of the two instants on. -/
structure Context where
  doneAt : Option Nat
  deadline : Option Nat := none

/-- Whether an instant, if there is one, is reached at `now`. -/
def reached (at_ : Option Nat) (now : Nat) : Bool :=
  match at_ with
  | some c => decide (c ≤ now)
  | none => false

/-- Whether `ctx.Done()` is closed at the instant `now`. -/
def Context.Done (ctx : Context) (now : Nat) : Bool :=
  reached ctx.doneAt now || reached ctx.deadline now

/-- The part of `http.Request` that matters: an identification of the
request and its context. -/
structure Request where
  Method : String
  URL : String
  ctx : Context

/-- The method `Request.Context`. -/
def Request.Context (r : Request) : Context := r.ctx

/-- An `http.RoundTripper`. A delegate may be stateful, so its answer depends
on the request and on how many times it has been called: `RoundTrip r k` is
the pair `(resp, err)` returned by the `k`-th call (counted from 1). -/
structure RoundTripper where
  RoundTrip : Request → Nat → Option Response × Option GoError

/-- The struct `retryTransport`. -/
structure retryTransport where
  next : RoundTripper

/-- The environment of one run besides the delegate: `latency k` is the
time the `k`-th delegate call takes, `random i` is the draw of the random
source used by the `i`-th call of `NextBackOff` (counted from 0). -/
structure World where
  latency : Nat → Nat
  random : Nat → Nat

/-! ## The backoff policy (`github.com/cenk/backoff`) -/

/-- One second in nanoseconds. -/
def Second : Nat := 1000000000

/-- One minute in nanoseconds. -/
def Minute : Nat := 60 * Second

/-- One millisecond in nanoseconds. -/
def Millisecond : Nat := 1000000

/-- The struct `backoff.ExponentialBackOff`. Its `RandomizationFactor` and
`Multiplier` keep their defaults 0.5 and 1.5 in this program and are built
into the functions below. -/
structure ExponentialBackOff where
  InitialInterval : Nat
  MaxInterval : Nat
  MaxElapsedTime : Nat
  currentInterval : Nat
  startTime : Nat

/-- The method `ExponentialBackOff.Reset`. -/
def ExponentialBackOff.Reset (b : ExponentialBackOff) (now : Nat) : ExponentialBackOff :=
  { b with currentInterval := b.InitialInterval, startTime := now }

/-- The constructor `backoff.NewExponentialBackOff` with the library defaults
(initial interval 500 ms, maximal interval 60 s, maximal elapsed time 15 min). -/
def NewExponentialBackOff (now : Nat) : ExponentialBackOff :=
  ExponentialBackOff.Reset
    { InitialInterval := 500 * Millisecond
      MaxInterval := 60 * Second
      MaxElapsedTime := 15 * Minute
      currentInterval := 0
      startTime := 0 } now

/-- The method `ExponentialBackOff.GetElapsedTime`. -/
def ExponentialBackOff.GetElapsedTime (b : ExponentialBackOff) (now : Nat) : Nat :=
  now - b.startTime

/-- The function `getRandomValueFromInterval` at randomization factor 0.5.
The library computes, in `float64`, `min + random * (max - min + 1)` with
`min = cur - 0.5 * cur`, `max = cur + 0.5 * cur` and `random` in `[0, 1)`,
and truncates. The floating point computation is not reproduced: the draw
picks any integer it can give, from `cur / 2` rounded down to `3 * cur / 2`
rounded up plus one (the value that rounding can reach at the top). -/
def getRandomValueFromInterval (random : Nat) (cur : Nat) : Nat :=
  let minInterval := cur / 2
  let maxInterval := cur + (cur + 1) / 2
  minInterval + random % (maxInterval - minInterval + 2)

/-- The method `incrementCurrentInterval` at multiplier 1.5: the interval
grows by the factor 3/2 until it would pass `MaxInterval`. -/
def ExponentialBackOff.incrementCurrentInterval (b : ExponentialBackOff) : ExponentialBackOff :=
  if 2 * b.MaxInterval ≤ 3 * b.currentInterval then
    { b with currentInterval := b.MaxInterval }
  else
    { b with currentInterval := b.currentInterval * 3 / 2 }

/-- The method `ExponentialBackOff.NextBackOff`: `none` is the sentinel
`backoff.Stop`, returned once the elapsed time is over `MaxElapsedTime`. -/
def ExponentialBackOff.NextBackOff (b : ExponentialBackOff) (now random : Nat) :
    Option Nat × ExponentialBackOff :=
  if b.MaxElapsedTime ≠ 0 ∧ b.MaxElapsedTime < b.GetElapsedTime now then
    (none, b)
  else
    (some (getRandomValueFromInterval random b.currentInterval), b.incrementCurrentInterval)

/-- The struct `backOffContext` built by `backoff.WithContext`. -/
structure backOffContext where
  BackOff : ExponentialBackOff
  ctx : Context

/-- The function `backoff.WithContext`. -/
def WithContext (b : ExponentialBackOff) (ctx : Context) : backOffContext :=
  { BackOff := b, ctx := ctx }

/-- Whether the deadline of the context, if it has one, is nearer than the
delay `next`: the test `deadline.Sub(time.Now()) < next`. -/
def Context.deadlineWithin (ctx : Context) (now next : Nat) : Bool :=
  match ctx.deadline with
  | some d => decide ((d : Int) - (now : Int) < (next : Int))
  | none => false

/-- The method `backOffContext.NextBackOff`: `Stop` when the context is
done; otherwise the answer of the wrapped policy, replaced by `Stop` when the
deadline of the context is nearer than the delay. -/
def backOffContext.NextBackOff (b : backOffContext) (now random : Nat) :
    Option Nat × backOffContext :=
  if b.ctx.Done now then
    (none, b)
  else
    match b.BackOff.NextBackOff now random with
    | (none, bo) => (none, { b with BackOff := bo })
    | (some next, bo) =>
      if b.ctx.deadlineWithin now next then (none, { b with BackOff := bo })
      else (some next, { b with BackOff := bo })

/-! ## The retrying transport (`transport_retry.go`) -/

/-- What a run does to the outside, in order. -/
inductive Event where
  | call (k : Nat)
  | readAll (k : Nat)
  | close (k : Nat)
deriving DecidableEq, Repr

/-- The state of one run of `RoundTrip`: the clock, the number of delegate
calls made so far, the events so far, and the two variables `resp` and
`attempt` captured by the closure. -/
structure State where
  now : Nat
  calls : Nat
  events : List Event
  resp : Option Response
  attempt : Nat

/-- How one call of the operation closure ends. -/
inductive OpResult where
  | ok
  | fail (e : GoError)
  | panic

/-- The closure passed to `backoff.Retry` (lines 32-54). `panic` is the nil
dereference of `resp.StatusCode` when the delegate returns neither a
response nor an error. -/
def operation (t : retryTransport) (w : World) (r : Request) (st : State) : State × OpResult :=
  let attempt := st.attempt + 1
  let k := st.calls + 1
  let (resp, e) := t.next.RoundTrip r k
  let st1 : State :=
    { now := st.now + w.latency k
      calls := k
      events := st.events ++ [Event.call k]
      resp := resp
      attempt := attempt }
  match e with
  | some e => (st1, OpResult.fail e)
  | none =>
    match resp with
    | none => (st1, OpResult.panic)
    | some rs =>
      if 500 ≤ rs.StatusCode then
        let (bodyBytes, e) := ReadAll rs.Body
        let resultErr :=
          match e with
          | some _ =>
            GoError.errorString
              ("unexpected status " ++ rs.Status ++ " from facebook, attempt " ++ toString attempt)
          | none =>
            GoError.errorString
              ("unexpected status " ++ rs.Status ++ " from facebook, body: " ++ bodyBytes
                ++ ", attempt " ++ toString attempt)
        ({ st1 with events := st1.events ++ [Event.readAll k, Event.close k] },
          OpResult.fail resultErr)
      else
        (st1, OpResult.ok)

/-- How `backoff.Retry` ends: it returns an error value, or the operation
panicked. -/
inductive RetryResult where
  | returned (err : Option GoError)
  | panicked

/-- The loop of `backoff.Retry` after `b.Reset()`: run the operation; stop
on success; when the operation error is a `*backoff.PermanentError`, stop
with its field `Err`; otherwise ask the policy for the next delay and stop
with the operation error when it says `Stop`; otherwise wait for the timer
or for the context, and stop with the operation error when the context is
done first (`select` on `ctx.Done()` and on the timer; when both are ready
at the same instant the context is taken). `i` counts the waits already
made. `fuel` bounds the iterations; `none` means the bound was reached. -/
def RetryLoop (op : State → State × OpResult) (w : World) :
    Nat → Nat → backOffContext → State → Option (State × RetryResult)
  | 0, _, _, _ => none
  | fuel + 1, i, b, st =>
    match op st with
    | (st1, OpResult.ok) => some (st1, RetryResult.returned none)
    | (st1, OpResult.panic) => some (st1, RetryResult.panicked)
    | (st1, OpResult.fail err) =>
      match err.asPermanent with
      | some inner => some (st1, RetryResult.returned inner)
      | none =>
        match b.NextBackOff st1.now (w.random i) with
        | (none, _) => some (st1, RetryResult.returned (some err))
        | (some next, b1) =>
          if b.ctx.Done (st1.now + next) then
            some (st1, RetryResult.returned (some err))
          else
            RetryLoop op w fuel (i + 1) b1 { st1 with now := st1.now + next }

/-- The function `backoff.Retry`: reset the policy, then loop. -/
def Retry (op : State → State × OpResult) (w : World) (b : backOffContext) (fuel : Nat)
    (st : State) : Option (State × RetryResult) :=
  RetryLoop op w fuel 0 { b with BackOff := b.BackOff.Reset st.now } st

/-- How `RoundTrip` ends. -/
inductive Outcome where
  | ret (resp : Option Response) (err : Option GoError)
  | panic

/-- One finished run of `RoundTrip`: what was returned, how many delegate
calls were made, and the events in order. -/
structure Run where
  outcome : Outcome
  calls : Nat
  events : List Event

/-- The method `retryTransport.RoundTrip` (lines 26-60). The clock starts
at 0 when the method is entered. -/
def retryTransport.RoundTrip (t : retryTransport) (w : World) (fuel : Nat) (r : Request) :
    Option Run :=
  let bo := NewExponentialBackOff 0
  let bo := { bo with InitialInterval := 6 * Second }
  let bo := { bo with MaxElapsedTime := 10 * Minute }
  let st0 : State := { now := 0, calls := 0, events := [], resp := none, attempt := 0 }
  match Retry (operation t w r) w (WithContext bo r.Context) fuel st0 with
  | none => none
  | some (st, RetryResult.panicked) =>
    some { outcome := Outcome.panic, calls := st.calls, events := st.events }
  | some (st, RetryResult.returned (some err)) =>
    some { outcome := Outcome.ret none (some err), calls := st.calls, events := st.events }
  | some (st, RetryResult.returned none) =>
    some { outcome := Outcome.ret st.resp none, calls := st.calls, events := st.events }

/-! ## Vocabulary for the statements about `RoundTrip` -/

/-- Whether a delegate result is a failure that the retry loop retries: a
transport error that is not a `*backoff.PermanentError`, or a response with
status 500 or more. -/
def retryable : Option Response × Option GoError → Bool
  | (_, some e) => e.asPermanent.isNone
  | (some rs, none) => decide (500 ≤ rs.StatusCode)
  | (none, none) => false

/-- The error with which the closure ends its run number `attempt` when the
delegate returned `res` (`none` when the closure ends without error). -/
def attemptError : Option Response × Option GoError → Nat → Option GoError
  | (_, some e), _ => some e
  | (none, none), _ => none
  | (some rs, none), attempt =>
    if 500 ≤ rs.StatusCode then
      match (ReadAll rs.Body).2 with
      | some _ =>
        some (GoError.errorString
          ("unexpected status " ++ rs.Status ++ " from facebook, attempt " ++ toString attempt))
      | none =>
        some (GoError.errorString
          ("unexpected status " ++ rs.Status ++ " from facebook, body: " ++ (ReadAll rs.Body).1
            ++ ", attempt " ++ toString attempt))
    else none

/-- The policy `RoundTrip` hands to the retry loop, after the loop has reset
it at instant 0. -/
def retryPolicy : ExponentialBackOff :=
  ExponentialBackOff.Reset
    { { NewExponentialBackOff 0 with InitialInterval := 6 * Second } with
      MaxElapsedTime := 10 * Minute } 0

/-- The policy after `i` delays have been handed out. -/
def policyAt : Nat → ExponentialBackOff
  | 0 => retryPolicy
  | i + 1 => (policyAt i).incrementCurrentInterval

/-- The delay of the wait number `i` (counted from 0). -/
def delayAt (w : World) (i : Nat) : Nat :=
  getRandomValueFromInterval (w.random i) (policyAt i).currentInterval

/-- The instant at which the wait after the `k`-th delegate call ends, when
every call up to the `k`-th was retried (`wakeTime w 0 = 0` is the start). -/
def wakeTime (w : World) : Nat → Nat
  | 0 => 0
  | k + 1 => wakeTime w k + w.latency (k + 1) + delayAt w k

/-- The instant at which the policy is consulted after the `k`-th delegate
call (`k ≥ 1`): the elapsed time that `NextBackOff` compares with the budget. -/
def checkTime (w : World) (k : Nat) : Nat :=
  wakeTime w (k - 1) + w.latency k

/-- The state in which `RoundTrip` enters the retry loop. -/
def startState : State := { now := 0, calls := 0, events := [], resp := none, attempt := 0 }

/-- The policy with which `RoundTrip` enters the retry loop. -/
def startBackOff (r : Request) : backOffContext := { BackOff := policyAt 0, ctx := r.Context }

/-- The situation of the retry loop when iteration `i + 1` starts: `i` calls
were made and retried, the policy has handed out `i` delays and the clock
shows the end of the `i`-th wait. -/
structure AtWake (w : World) (r : Request) (i : Nat) (b : backOffContext) (st : State) :
    Prop where
  hctx : b.ctx = r.Context
  hbo : b.BackOff = policyAt i
  hcalls : st.calls = i
  hattempt : st.attempt = i
  hnow : st.now = wakeTime w i

/-! ## Reading JSON text (the scanner of `encoding/json`) -/

/-- The white space of the JSON grammar. -/
def isSpace (c : Char) : Bool :=
  c = ' ' || c = '\t' || c = '\r' || c = '\n'

/-- Drop leading white space. -/
def skipSpace : List Char → List Char
  | [] => []
  | c :: cs => if isSpace c then skipSpace cs else c :: cs

/-- The value of a hexadecimal digit. -/
def hexVal (c : Char) : Option Nat :=
  if '0' ≤ c ∧ c ≤ '9' then some (c.toNat - '0'.toNat)
  else if 'a' ≤ c ∧ c ≤ 'f' then some (c.toNat - 'a'.toNat + 10)
  else if 'A' ≤ c ∧ c ≤ 'F' then some (c.toNat - 'A'.toNat + 10)
  else none

/-- The function `getu4`: the number written by four hexadecimal digits. -/
def getu4 (a b c d : Char) : Option Nat :=
  match hexVal a, hexVal b, hexVal c, hexVal d with
  | some x, some y, some z, some u => some (((x * 16 + y) * 16 + z) * 16 + u)
  | _, _, _, _ => none

/-- The character of a one-letter escape. -/
def unescape (e : Char) : Option Char :=
  if e = '"' then some '"'
  else if e = '\\' then some '\\'
  else if e = '/' then some '/'
  else if e = 'b' then some (Char.ofNat 8)
  else if e = 'f' then some (Char.ofNat 12)
  else if e = 'n' then some '\n'
  else if e = 'r' then some '\r'
  else if e = 't' then some '\t'
  else none

/-- Read four hexadecimal digits. -/
def readU4 : List Char → Option (Nat × List Char)
  | a :: b :: c :: d :: rest => (getu4 a b c d).map fun n => (n, rest)
  | _ => none

/-- After the escape of a surrogate `n`: when `n` is a high surrogate and an
escape of a low surrogate follows, the character the pair denotes and the
rest after the second escape. -/
def lowSurrogate (n : Nat) : List Char → Option (Char × List Char)
  | e :: u :: rest =>
    if n < 0xDC00 ∧ e = '\\' ∧ u = 'u' then
      match readU4 rest with
      | some (m, rest3) =>
        if 0xDC00 ≤ m ∧ m < 0xE000 then
          some (Char.ofNat (0x10000 + (n - 0xD800) * 0x400 + (m - 0xDC00)), rest3)
        else none
      | none => none
    else none
  | _ => none

/-- Read one escape sequence after its backslash: the character it denotes
and the rest. A surrogate that is not part of a pair denotes U+FFFD. -/
def readEscape : List Char → Option (Char × List Char)
  | [] => none
  | e :: rest1 =>
    if e = 'u' then
      match readU4 rest1 with
      | none => none
      | some (n, rest2) =>
        if 0xD800 ≤ n ∧ n < 0xE000 then
          match lowSurrogate n rest2 with
          | some (ch, rest3) => some (ch, rest3)
          | none => some (Char.ofNat 0xFFFD, rest2)
        else some (Char.ofNat n, rest2)
    else (unescape e).map fun ch => (ch, rest1)

/-- Read a string after its opening quote: the characters it denotes and
what follows the closing quote. `fuel` bounds the number of characters
read; the length of the input is enough. -/
def scanString : Nat → List Char → Option (List Char × List Char)
  | 0, _ => none
  | _ + 1, [] => none
  | fuel + 1, c :: rest =>
    if c = '"' then some ([], rest)
    else if c = '\\' then
      match readEscape rest with
      | none => none
      | some (ch, rest1) => (scanString fuel rest1).map fun p => (ch :: p.1, p.2)
    else if c.toNat < 0x20 then none
    else (scanString fuel rest).map fun p => (c :: p.1, p.2)

/-- Split off the leading decimal digits. -/
def takeDigits : List Char → List Char × List Char
  | [] => ([], [])
  | c :: cs =>
    if c.isDigit then
      let p := takeDigits cs
      (c :: p.1, p.2)
    else ([], c :: cs)

/-- Read a number literal: the literal and what follows it. -/
def scanNumber (cs : List Char) : Option (List Char × List Char) :=
  let (sign, cs1) :=
    match cs with
    | c :: rest => if c = '-' then ([c], rest) else ([], cs)
    | [] => ([], cs)
  let intPart : Option (List Char × List Char) :=
    match cs1 with
    | c :: rest =>
      if c = '0' then some ([c], rest)
      else if c.isDigit then
        let p := takeDigits rest
        some (c :: p.1, p.2)
      else none
    | [] => none
  match intPart with
  | none => none
  | some (ip, cs2) =>
    let frac : Option (List Char × List Char) :=
      match cs2 with
      | c :: rest =>
        if c = '.' then
          match takeDigits rest with
          | ([], _) => none
          | (ds, r) => some (c :: ds, r)
        else some ([], cs2)
      | [] => some ([], cs2)
    match frac with
    | none => none
    | some (fp, cs3) =>
      let exp : Option (List Char × List Char) :=
        match cs3 with
        | c :: rest =>
          if c = 'e' ∨ c = 'E' then
            let (sg, rest1) :=
              match rest with
              | s :: r => if s = '+' ∨ s = '-' then ([s], r) else ([], rest)
              | [] => ([], rest)
            match takeDigits rest1 with
            | ([], _) => none
            | (ds, r) => some (c :: sg ++ ds, r)
          else some ([], cs3)
        | [] => some ([], cs3)
      match exp with
      | none => none
      | some (ep, cs4) => some (sign ++ ip ++ fp ++ ep, cs4)

/-- Strip a keyword from the front of the input. -/
def stripWord : List Char → List Char → Option (List Char)
  | [], cs => some cs
  | _ :: _, [] => none
  | w :: ws, c :: cs => if w = c then stripWord ws cs else none

/-- The nesting limit of the scanner of `encoding/json`. -/
def maxNestingDepth : Nat := 10000

mutual
/-- Read one JSON value (after optional white space) and return it with the
rest of the input. `fuel` bounds the number of nested readings, `depth` is
the number of arrays and objects the value is nested in. -/
def parseValue : Nat → Nat → List Char → Option (Json × List Char)
  | 0, _, _ => none
  | fuel + 1, depth, cs =>
    match skipSpace cs with
    | [] => none
    | c :: rest =>
      if c = '{' then
        if maxNestingDepth ≤ depth then none
        else
          match skipSpace rest with
          | [] => none
          | c1 :: rest1 =>
            if c1 = '}' then some (Json.obj [], rest1)
            else (parseMembers fuel (depth + 1) (c1 :: rest1)).map fun p => (Json.obj p.1, p.2)
      else if c = '[' then
        if maxNestingDepth ≤ depth then none
        else
          match skipSpace rest with
          | [] => none
          | c1 :: rest1 =>
            if c1 = ']' then some (Json.arr [], rest1)
            else (parseElems fuel (depth + 1) (c1 :: rest1)).map fun p => (Json.arr p.1, p.2)
      else if c = '"' then
        (scanString rest.length rest).map fun p => (Json.str (String.mk p.1), p.2)
      else if c = 't' then (stripWord "rue".toList rest).map fun r => (Json.bool true, r)
      else if c = 'f' then (stripWord "alse".toList rest).map fun r => (Json.bool false, r)
      else if c = 'n' then (stripWord "ull".toList rest).map fun r => (Json.null, r)
      else (scanNumber (c :: rest)).map fun p => (Json.num (String.mk p.1), p.2)
/-- Read the elements of an array up to the closing bracket. -/
def parseElems : Nat → Nat → List Char → Option (List Json × List Char)
  | 0, _, _ => none
  | fuel + 1, depth, cs =>
    match parseValue fuel depth cs with
    | none => none
    | some (v, rest) =>
      match skipSpace rest with
      | [] => none
      | c :: rest1 =>
        if c = ',' then (parseElems fuel depth rest1).map fun p => (v :: p.1, p.2)
        else if c = ']' then some ([v], rest1)
        else none
/-- Read the members of an object up to the closing brace. -/
def parseMembers : Nat → Nat → List Char → Option (List (String × Json) × List Char)
  | 0, _, _ => none
  | fuel + 1, depth, cs =>
    match skipSpace cs with
    | [] => none
    | q :: rest =>
      if q = '"' then
        match scanString rest.length rest with
        | none => none
        | some (key, rest1) =>
          match skipSpace rest1 with
          | [] => none
          | colon :: rest2 =>
            if colon = ':' then
              match parseValue fuel depth rest2 with
              | none => none
              | some (v, rest3) =>
                match skipSpace rest3 with
                | [] => none
                | c :: rest4 =>
                  if c = ',' then
                    (parseMembers fuel depth rest4).map fun p => ((String.mk key, v) :: p.1, p.2)
                  else if c = '}' then some ([(String.mk key, v)], rest4)
                  else none
            else none
      else none
end

/-- The syntax pass of `json.Unmarshal`: the value a text denotes, `none`
when the text is not exactly one JSON value. -/
def parseJSON (data : String) : Option Json :=
  match parseValue (2 * data.length + 2) 0 data.toList with
  | none => none
  | some (v, rest) => if skipSpace rest = [] then some v else none

/-! ## Decoding JSON values into Go values (the decoder of `encoding/json`) -/

/-- A Go value of type `any` as `encoding/json` builds it: `nil`, `bool`,
`float64`, `string`, `[]any` or `map[string]any`. A `float64` is kept as
the number literal it was read from; a map is an association list with
distinct keys, whose order carries no meaning. -/
inductive Any where
  | nil
  | bool (b : Bool)
  | float64 (lit : String)
  | string (s : String)
  | slice (items : List Any)
  | map (entries : List (String × Any))

/-- The number written by a run of decimal digits (0 for the empty run). -/
def decVal (cs : List Char) : Nat :=
  cs.foldl (fun n c => 10 * n + (c.toNat - '0'.toNat)) 0

/-- The number written by a non-empty run of decimal digits, `none` for
anything else. -/
def digitsVal (cs : List Char) : Option Nat :=
  if cs ≠ [] ∧ cs.all Char.isDigit then some (decVal cs) else none

/-- The function `strconv.ParseInt(lit, 10, 64)` on a JSON number literal,
followed by the overflow check for the Go type `int` (64 bits): the literal
must be an optional minus sign and digits, and its value must fit. -/
def parseIntLit (lit : String) : Option Int :=
  let r : Option Int :=
    match lit.toList with
    | c :: rest =>
      if c = '-' then (digitsVal rest).map fun n => - (n : Int)
      else (digitsVal (c :: rest)).map fun n => (n : Int)
    | [] => none
  match r with
  | some n => if - (2 : Int) ^ 63 ≤ n ∧ n < (2 : Int) ^ 63 then some n else none
  | none => none

/-- The function `strconv.ParseUint(lit, 10, 64)` on a JSON number literal:
digits only, and a value under `2 ^ 64`. -/
def parseUintLit (lit : String) : Option Nat :=
  match digitsVal lit.toList with
  | some n => if n < 2 ^ 64 then some n else none
  | none => none

/-- The least magnitude that `float64` rounds to infinity,
`2 ^ 1024 - 2 ^ 970 = (2 ^ 54 - 1) * 2 ^ 970`, with `2 ^ 970` written as
`(2 ^ 194) ^ 5`. -/
def float64Limit : Nat := (2 ^ 54 - 1) * (2 ^ 194) ^ 5

/-- Whether `strconv.ParseFloat(lit, 64)` accepts a JSON number literal: it
reports a range error exactly when the magnitude written is at least
`2 ^ 1024 - 2 ^ 970`, the point from which rounding gives infinity. The
literal is `-? int (. frac)? (e sign? exp)?`; its magnitude is the number
written by `int frac` times ten to the power `± exp - |frac|`. -/
def floatInRange (lit : String) : Bool :=
  let cs :=
    match lit.toList with
    | c :: rest => if c = '-' then rest else c :: rest
    | [] => []
  let isE := fun (c : Char) => c = 'e' || c = 'E'
  let mant := cs.takeWhile fun c => !isE c
  let expo := (cs.dropWhile fun c => !isE c).drop 1
  let intDigits := mant.takeWhile Char.isDigit
  let fracDigits := (mant.dropWhile Char.isDigit).drop 1
  let m := decVal (intDigits ++ fracDigits)
  let expNeg := expo.head? = some '-'
  let expAbs := decVal (expo.filter Char.isDigit)
  let limit := float64Limit
  if expNeg then decide (m < limit * 10 ^ (expAbs + fracDigits.length))
  else if fracDigits.length ≤ expAbs then
    decide (m * 10 ^ (expAbs - fracDigits.length) < limit)
  else decide (m < limit * 10 ^ (fracDigits.length - expAbs))

/-- Keep the first error, as `decodeState.saveError` does. -/
def saveError (saved new : Option GoError) : Option GoError :=
  match saved with
  | some e => some e
  | none => new

mutual
/-- The method `decodeState.valueInterface`: the generic Go value of a JSON
value, with the first error met (a number out of the `float64` range
decodes to `nil` and leaves an error). -/
def decodeAny : Json → Any × Option GoError
  | Json.null => (Any.nil, none)
  | Json.bool b => (Any.bool b, none)
  | Json.num lit =>
    if floatInRange lit then (Any.float64 lit, none)
    else (Any.nil, some (GoError.jsonType ("number " ++ lit)))
  | Json.str s => (Any.string s, none)
  | Json.arr items =>
    let p := decodeAnyList items
    (Any.slice p.1, p.2)
  | Json.obj members =>
    let p := decodeAnyMembers members
    (Any.map p.1, p.2)
/-- The elements of an array, decoded in order. -/
def decodeAnyList : List Json → List Any × Option GoError
  | [] => ([], none)
  | v :: rest =>
    let a := decodeAny v
    let p := decodeAnyList rest
    (a.1 :: p.1, saveError a.2 p.2)
/-- The members of an object, decoded in order into a fresh map: where a
key is repeated the last member stays. -/
def decodeAnyMembers : List (String × Json) → List (String × Any) × Option GoError
  | [] => ([], none)
  | (k, v) :: rest =>
    let a := decodeAny v
    let p := decodeAnyMembers rest
    if p.1.any (fun q => q.1 = k) then (p.1, saveError a.2 p.2)
    else ((k, a.1) :: p.1, saveError a.2 p.2)
end

/-- The function `json.Unmarshal(data, &body)` for a variable `body` of type
`any`: the new value of `body` and the error returned. -/
def unmarshalAny (data : String) (body : Any) : Any × Option GoError :=
  match parseJSON data with
  | none => (body, some GoError.jsonSyntax)
  | some v => decodeAny v

/-- Fold a rune as `foldName` does for the matching of member names:
ASCII letters lose their case, and the Kelvin sign and the long s fold with
`k` and `s`. -/
def foldChar (c : Char) : Char :=
  if 'a' ≤ c ∧ c ≤ 'z' then Char.ofNat (c.toNat - 32)
  else if c = Char.ofNat 0x212A then 'K'
  else if c = Char.ofNat 0x17F then 'S'
  else c

/-- The function `foldName`. -/
def foldName (s : String) : String := String.mk (s.toList.map foldChar)

/-- The field a member name selects among the JSON names of a struct: an
exact match first, then a match up to case. -/
def findField (names : List String) (key : String) : Option String :=
  match names.find? fun n => n = key with
  | some n => some n
  | none => names.find? fun n => foldName n = foldName key

/-- How `UnmarshalTypeError` describes the JSON value it met. -/
def Json.describe : Json → String
  | Json.null => "null"
  | Json.bool _ => "bool"
  | Json.num _ => "number"
  | Json.str _ => "string"
  | Json.arr _ => "array"
  | Json.obj _ => "object"

/-- Store a JSON value into a field of type `string`. -/
def storeString (v : Json) (cur : String) : String × Option GoError :=
  match v with
  | Json.null => (cur, none)
  | Json.str s => (s, none)
  | other => (cur, some (GoError.jsonType other.describe))

/-- Store a JSON value into a field of type `int`. -/
def storeInt (v : Json) (cur : Int) : Int × Option GoError :=
  match v with
  | Json.null => (cur, none)
  | Json.num lit =>
    match parseIntLit lit with
    | some n => (n, none)
    | none => (cur, some (GoError.jsonType ("number " ++ lit)))
  | other => (cur, some (GoError.jsonType other.describe))

/-- Store a JSON value into a field of type `uint64`. -/
def storeUint (v : Json) (cur : Nat) : Nat × Option GoError :=
  match v with
  | Json.null => (cur, none)
  | Json.num lit =>
    match parseUintLit lit with
    | some n => (n, none)
    | none => (cur, some (GoError.jsonType ("number " ++ lit)))
  | other => (cur, some (GoError.jsonType other.describe))

/-- Store a JSON value into a field of type `bool`. -/
def storeBool (v : Json) (cur : Bool) : Bool × Option GoError :=
  match v with
  | Json.null => (cur, none)
  | Json.bool b => (b, none)
  | other => (cur, some (GoError.jsonType other.describe))

/-- Decode the members of an object into a struct, one after the other:
`store name v s` stores the value `v` into the field with JSON name `name`.
Members that select no field are skipped; the first error is kept and the
decoding goes on. -/
def decodeMembers {σ : Type} (names : List String)
    (store : String → Json → σ → σ × Option GoError) :
    List (String × Json) → σ → σ × Option GoError
  | [], s => (s, none)
  | (k, v) :: rest, s =>
    match findField names k with
    | none => decodeMembers names store rest s
    | some name =>
      let p := store name v s
      let q := decodeMembers names store rest p.1
      (q.1, saveError p.2 q.2)

/-- Decode a JSON value into a struct: `null` changes nothing, an object is
decoded member by member, anything else is a type error. -/
def decodeStruct {σ : Type} (names : List String)
    (store : String → Json → σ → σ × Option GoError) (v : Json) (s : σ) :
    σ × Option GoError :=
  match v with
  | Json.null => (s, none)
  | Json.obj members => decodeMembers names store members s
  | other => (s, some (GoError.jsonType other.describe))

/-! ## Error model (`types.go`), continued -/

/-- The struct `ErrorContainer`. -/
structure ErrorContainer where
  Error : Option Error

/-- The method `ErrorContainer.GetError`. -/
def ErrorContainer.GetError (ec : ErrorContainer) : Option GoError :=
  match ec.Error with
  | some e => some (GoError.fbError (some e))
  | none => none

/-- The function `IsNotFound`. The type assertion `err.(*Error)` succeeds
exactly on the values of dynamic type `*Error`. -/
def IsNotFound (err : Option GoError) : Bool :=
  match err with
  | some (GoError.fbError e) =>
    match e with
    | none => false
    | some e => e.Code = 100 && e.ErrorSubcode = 33
  | _ => false

/-- The method `Error.Error` (on a non-nil receiver). -/
def Error.Error (e : Error) : String :=
  if e.ErrorUserMsg ≠ "" then e.ErrorUserMsg
  else
    "facebook: type='" ++ e.Type_ ++ "' message='" ++ e.Message ++ "' error_user_title='"
      ++ e.ErrorUserTitle ++ "'"

/-- The zero value of the struct `Error`. -/
def Error.zero : fb.Error :=
  { Message := "", Type_ := "", Code := 0, ErrorSubcode := 0, FbtraceID := ""
    IsTransient := false, ErrorUserTitle := "", ErrorUserMsg := "", ErrorData := none }

/-- The JSON names of the fields of `Error`, in field order. -/
def Error.jsonNames : List String :=
  ["message", "type", "code", "error_subcode", "fbtrace_id", "is_transient",
    "error_user_title", "error_user_msg", "error_data"]

/-- Store a member into the field of `Error` with the given JSON name. -/
def Error.store (name : String) (v : Json) (e : fb.Error) : fb.Error × Option GoError :=
  if name = "message" then
    let p := storeString v e.Message
    ({ e with Message := p.1 }, p.2)
  else if name = "type" then
    let p := storeString v e.Type_
    ({ e with Type_ := p.1 }, p.2)
  else if name = "code" then
    let p := storeUint v e.Code
    ({ e with Code := p.1 }, p.2)
  else if name = "error_subcode" then
    let p := storeUint v e.ErrorSubcode
    ({ e with ErrorSubcode := p.1 }, p.2)
  else if name = "fbtrace_id" then
    let p := storeString v e.FbtraceID
    ({ e with FbtraceID := p.1 }, p.2)
  else if name = "is_transient" then
    let p := storeBool v e.IsTransient
    ({ e with IsTransient := p.1 }, p.2)
  else if name = "error_user_title" then
    let p := storeString v e.ErrorUserTitle
    ({ e with ErrorUserTitle := p.1 }, p.2)
  else if name = "error_user_msg" then
    let p := storeString v e.ErrorUserMsg
    ({ e with ErrorUserMsg := p.1 }, p.2)
  else if name = "error_data" then
    ({ e with ErrorData := some v }, none)
  else (e, none)

/-- Store a JSON value into a field of type `*Error`: `null` sets the
pointer to nil; any other value is decoded into the struct pointed to, which
is allocated when the pointer is nil. -/
def storeErrorPtr (v : Json) (cur : Option Error) : Option Error × Option GoError :=
  match v with
  | Json.null => (none, none)
  | other =>
    let p := decodeStruct Error.jsonNames Error.store other (cur.getD Error.zero)
    (some p.1, p.2)

/-- Store a member into the field of `ErrorContainer` with the given JSON name. -/
def ErrorContainer.store (name : String) (v : Json) (ec : ErrorContainer) :
    ErrorContainer × Option GoError :=
  if name = "error" then
    let p := storeErrorPtr v ec.Error
    ({ ec with Error := p.1 }, p.2)
  else (ec, none)

/-- The function `json.Unmarshal(data, &ec)` for an `ErrorContainer`. -/
def ErrorContainer.unmarshal (data : String) (ec : ErrorContainer) :
    ErrorContainer × Option GoError :=
  match parseJSON data with
  | none => (ec, some GoError.jsonSyntax)
  | some v => decodeStruct ["error"] ErrorContainer.store v ec

/-! ## Batch codec (`types.go`): decoding a `BatchResponse` -/

/-- The struct `BatchResponse`. -/
structure BatchResponse where
  Code : Int
  Body : Any

/-- The anonymous struct `temp` of `UnmarshalJSON`. -/
structure BatchResponseTemp where
  Code : Int
  Body : String

/-- Store a member into the field of `temp` with the given JSON name. -/
def BatchResponseTemp.store (name : String) (v : Json) (t : BatchResponseTemp) :
    BatchResponseTemp × Option GoError :=
  if name = "code" then
    let p := storeInt v t.Code
    ({ t with Code := p.1 }, p.2)
  else if name = "body" then
    let p := storeString v t.Body
    ({ t with Body := p.1 }, p.2)
  else (t, none)

/-- The function `json.Unmarshal(data, &temp)`. -/
def BatchResponseTemp.unmarshal (data : String) (t : BatchResponseTemp) :
    BatchResponseTemp × Option GoError :=
  match parseJSON data with
  | none => (t, some GoError.jsonSyntax)
  | some v => decodeStruct ["code", "body"] BatchResponseTemp.store v t

/-- The method `BatchResponse.UnmarshalJSON`: the receiver after the call
and the error returned. -/
def BatchResponse.UnmarshalJSON (br : BatchResponse) (data : String) :
    BatchResponse × Option GoError :=
  let temp : BatchResponseTemp := { Code := 0, Body := "" }
  match BatchResponseTemp.unmarshal data temp with
  | (_, some err) => (br, some err)
  | (temp, none) =>
    let body : Any := Any.nil
    match unmarshalAny temp.Body body with
    | (_, some err) => (br, some err)
    | (body, none) => ({ br with Code := temp.Code, Body := body }, none)

/-! ## Writing JSON text (the encoder of `encoding/json`) on Go strings -/

/-- The digit of `0123456789abcdef` at position `n`. -/
def hexLower (n : Nat) : Char :=
  if n < 10 then Char.ofNat ('0'.toNat + n) else Char.ofNat ('a'.toNat + (n - 10))

/-- How `json.Marshal` writes one character of a string (with the escaping
of HTML characters that `Marshal` turns on): short escapes for the quote,
the backslash and five control characters, `\u00XX` for the other control
characters and for `<`, `>`, `&`, `\u202X` for the two line separators
U+2028 and U+2029, and the character itself otherwise. -/
def encodeChar (c : Char) : List Char :=
  if c = '"' then ['\\', '"']
  else if c = '\\' then ['\\', '\\']
  else if c = Char.ofNat 8 then ['\\', 'b']
  else if c = Char.ofNat 12 then ['\\', 'f']
  else if c = '\n' then ['\\', 'n']
  else if c = '\r' then ['\\', 'r']
  else if c = '\t' then ['\\', 't']
  else if c.toNat < 0x20 ∨ c = '<' ∨ c = '>' ∨ c = '&' then
    ['\\', 'u', '0', '0', hexLower (c.toNat / 16), hexLower (c.toNat % 16)]
  else if c = Char.ofNat 0x2028 ∨ c = Char.ofNat 0x2029 then
    ['\\', 'u', '2', '0', '2', hexLower (c.toNat % 16)]
  else [c]

/-- A byte. -/
abbrev Byte := Fin 256

/-- A Go `string`: any sequence of bytes, valid UTF-8 or not. -/
abbrev GoString := List Byte

/-- The byte with the given value. -/
def byteOf (n : Nat) : Byte := ⟨n % 256, Nat.mod_lt _ (by decide)⟩

/-- The byte of a character below 128. -/
def ascii (c : Char) : Byte := byteOf c.toNat

/-- The bytes of the UTF-8 encoding of a character. -/
def utf8Bytes (c : Char) : GoString :=
  let n := c.toNat
  if n < 0x80 then [byteOf n]
  else if n < 0x800 then [byteOf (0xC0 + n / 0x40), byteOf (0x80 + n % 0x40)]
  else if n < 0x10000 then
    [byteOf (0xE0 + n / 0x1000), byteOf (0x80 + n / 0x40 % 0x40), byteOf (0x80 + n % 0x40)]
  else
    [byteOf (0xF0 + n / 0x40000), byteOf (0x80 + n / 0x1000 % 0x40),
      byteOf (0x80 + n / 0x40 % 0x40), byteOf (0x80 + n % 0x40)]

/-- The Go string that holds a text: the UTF-8 encoding of its characters. -/
def utf8 (s : String) : GoString := s.toList.flatMap utf8Bytes

/-- The function `utf8.DecodeRuneInString` on the non-empty string
`b0 :: rest`: the rune and its width in bytes. The result `none` with width 1
is `(RuneError, 1)`, returned when `b0` starts no valid encoding: the first
byte decides the width and the range of the second byte (`0xA0..0xBF` after
`0xE0`, `0x80..0x9F` after `0xED`, `0x90..0xBF` after `0xF0`, `0x80..0x8F`
after `0xF4`, `0x80..0xBF` otherwise), every later byte is in `0x80..0xBF`. -/
def decodeRune (b0 : Byte) (rest : GoString) : Option Char × Nat :=
  if b0.val < 0x80 then (some (Char.ofNat b0.val), 1)
  else if b0.val < 0xC2 ∨ 0xF4 < b0.val then (none, 1)
  else
    let lo := if b0.val = 0xE0 then 0xA0 else if b0.val = 0xF0 then 0x90 else 0x80
    let hi := if b0.val = 0xED then 0x9F else if b0.val = 0xF4 then 0x8F else 0xBF
    match rest with
    | [] => (none, 1)
    | b1 :: r1 =>
      if b1.val < lo ∨ hi < b1.val then (none, 1)
      else if b0.val < 0xE0 then
        (some (Char.ofNat (b0.val % 0x20 * 0x40 + b1.val % 0x40)), 2)
      else
        match r1 with
        | [] => (none, 1)
        | b2 :: r2 =>
          if b2.val < 0x80 ∨ 0xBF < b2.val then (none, 1)
          else if b0.val < 0xF0 then
            (some (Char.ofNat
              (b0.val % 0x10 * 0x1000 + b1.val % 0x40 * 0x40 + b2.val % 0x40)), 3)
          else
            match r2 with
            | [] => (none, 1)
            | b3 :: _ =>
              if b3.val < 0x80 ∨ 0xBF < b3.val then (none, 1)
              else
                (some (Char.ofNat
                  (b0.val % 8 * 0x40000 + b1.val % 0x40 * 0x1000 + b2.val % 0x40 * 0x40
                    + b3.val % 0x40)), 4)

/-- The runes of a Go string as the encoder loop reads them, a call of
`DecodeRuneInString(s[i:])` followed by `i += size`: `skip` bytes are passed over (the rest of the rune decoded
last), then a rune is decoded at each position reached. The rune `none` is
a byte that starts no valid encoding. -/
def decodeRunesFrom : Nat → GoString → List (Option Char)
  | _, [] => []
  | skip + 1, _ :: rest => decodeRunesFrom skip rest
  | 0, b :: rest =>
    let p := decodeRune b rest
    p.1 :: decodeRunesFrom (p.2 - 1) rest

/-- The runes of a Go string, from its first byte. -/
def decodeRunes (s : GoString) : List (Option Char) := decodeRunesFrom 0 s

/-- The character that stands for a rune read from a Go string: U+FFFD for
a byte that starts no valid encoding. -/
def runeChar : Option Char → Char
  | some c => c
  | none => Char.ofNat 0xFFFD

/-- The text of a Go string: its runes, with U+FFFD in the place of every
byte that starts no valid encoding. -/
def GoString.text (s : GoString) : String := String.mk ((decodeRunes s).map runeChar)

/-- How `json.Marshal` writes one rune of a string: a character as
`encodeChar` tells, and the escape `\ufffd` for a byte that starts no valid encoding. -/
def encodeRune : Option Char → List Char
  | some c => encodeChar c
  | none => ['\\', 'u', 'f', 'f', 'f', 'd']

/-- The runes of a string between the quotes, as `json.Marshal` writes
them. -/
def encodeRunes : List (Option Char) → List Char
  | [] => []
  | u :: us => encodeRune u ++ encodeRunes us

/-- A string as `json.Marshal` writes it. -/
def encodeString (s : GoString) : List Char :=
  '"' :: (encodeRunes (decodeRunes s) ++ ['"'])

/-! ## Form encoding (`net/url`) -/

/-- The type `url.Values`, a `map[string][]string`, as an association list.
The keys of a map are distinct; where a list repeats a key its first entry
counts. -/
abbrev Values := List (GoString × List GoString)

/-- The method `Values.Get`-like lookup `v[k]` (the empty slice for a
missing key). -/
def Values.lookup (v : Values) (k : GoString) : List GoString :=
  match v with
  | [] => []
  | (k1, vs) :: rest => if k1 = k then vs else Values.lookup rest k

/-- The function `shouldEscape` in the mode `encodeQueryComponent`: the
bytes of letters, digits and `-`, `_`, `.`, `~` are kept, every other byte
is escaped. -/
def shouldEscape (b : Byte) : Bool :=
  let c := Char.ofNat b.val
  !(c.isAlphanum || c = '-' || c = '_' || c = '.' || c = '~')

/-- The digit of `0123456789ABCDEF` at position `n`. -/
def upperhex (n : Nat) : Char :=
  if n < 10 then Char.ofNat ('0'.toNat + n) else Char.ofNat ('A'.toNat + (n - 10))

/-- How `QueryEscape` writes one byte: a space becomes `+`, a kept byte
stays, every other byte becomes `%XX`. -/
def escapeByte (b : Byte) : GoString :=
  if b.val = 0x20 then [ascii '+']
  else if shouldEscape b then
    [ascii '%', ascii (upperhex (b.val / 16)), ascii (upperhex (b.val % 16))]
  else [b]

/-- The function `url.QueryEscape`. -/
def QueryEscape (s : GoString) : GoString := s.flatMap escapeByte

/-- The order of `slices.Sort` on strings: lexicographic by bytes. -/
def bytesLe : GoString → GoString → Bool
  | [], _ => true
  | _ :: _, [] => false
  | a :: as, b :: bs => a.val < b.val || (a.val = b.val && bytesLe as bs)

/-- The keys of the map, sorted (`slices.Sort` on a fresh slice of the keys). -/
def Values.sortedKeys (v : Values) : List GoString :=
  ((v.map Prod.fst).dedup).insertionSort fun a b => bytesLe a b = true

/-- The pairs `key=value` that `Encode` writes for one key. -/
def encodePairs (keyEscaped : GoString) (vs : List GoString) : List GoString :=
  vs.map fun val => keyEscaped ++ ascii '=' :: QueryEscape val

/-- The pairs `key=value` of the given keys, in the order of the keys,
joined by `&`. -/
def formEncode (keys : List GoString) (v : Values) : GoString :=
  [ascii '&'].intercalate (keys.flatMap fun k => encodePairs (QueryEscape k) (v.lookup k))

/-- The method `Values.Encode`: the pairs `key=value` of all keys in sorted
order, joined by `&`; together with the map as the call leaves it (the
method sorts a fresh slice of the keys and only reads the map). -/
def Values.Encode (v : Values) : GoString × Values :=
  (formEncode v.sortedKeys v, v)

/-! ## Struct encoding (`encoding/json`) -/

/-- The value of a struct field that `json.Marshal` meets here. -/
inductive FieldValue where
  | str (s : GoString)
  | values (v : Values)

/-- A field as `typeFields` lists it: its JSON name, its index sequence
(the path through embedded structs), whether the name comes from a tag, and
its value. -/
structure StructField where
  name : GoString
  index : List Nat
  tagged : Bool
  value : FieldValue

/-- The function `dominantField`: among the fields of one name, the one at
the least depth wins; when several sit at the least depth, the only tagged
one wins; otherwise none does. -/
def dominantField (group : List StructField) : Option StructField :=
  match group with
  | [] => none
  | f :: rest =>
    let depth := rest.foldl (fun d g => min d g.index.length) f.index.length
    match group.filter fun g => g.index.length = depth with
    | [g] => some g
    | shallow =>
      match shallow.filter fun g => g.tagged with
      | [g] => some g
      | _ => none

/-- Whether an index sequence comes before another (the order `byIndex`). -/
def indexLe : List Nat → List Nat → Bool
  | [], _ => true
  | _ :: _, [] => false
  | a :: as, b :: bs => a < b || (a = b && indexLe as bs)

/-- The function `typeFields`, from the list of all fields met: one dominant
field per name, in the order of the index sequences. -/
def typeFields (fields : List StructField) : List StructField :=
  let names := (fields.map fun f => f.name).dedup
  let dominant := names.filterMap fun n => dominantField (fields.filter fun f => f.name = n)
  dominant.insertionSort fun f g => indexLe f.index g.index = true

/-- A slice of strings as `json.Marshal` writes it. -/
def encodeStrings (vs : List GoString) : List Char :=
  '[' :: ((",".intercalate (vs.map fun s => String.mk (encodeString s))).toList ++ [']'])

/-- A field value as `json.Marshal` writes it: a string, or a map of string
slices with its keys sorted. -/
def encodeFieldValue : FieldValue → List Char
  | FieldValue.str s => encodeString s
  | FieldValue.values v =>
    '{' :: ((",".intercalate (v.sortedKeys.map fun k =>
      String.mk (encodeString k ++ ':' :: encodeStrings (v.lookup k)))).toList ++ ['}'])

/-- The members of a struct as `json.Marshal` writes them, separated by
commas. -/
def encodeFields : List StructField → List Char
  | [] => []
  | [f] => encodeString f.name ++ ':' :: encodeFieldValue f.value
  | f :: g :: rest =>
    encodeString f.name ++ ':' :: encodeFieldValue f.value ++ ',' :: encodeFields (g :: rest)

/-- The function `json.Marshal` on a struct given by the list of all its
fields, embedded ones included. The text it returns stands for the bytes of
its UTF-8 encoding. -/
def marshalStruct (fields : List StructField) : String :=
  String.mk ('{' :: (encodeFields (typeFields fields) ++ ['}']))

/-! ## Batch codec (`types.go`): encoding a `BatchRequest` -/

/-- The struct `BatchRequest`. -/
structure BatchRequest where
  Method : GoString
  Path : GoString
  Body : Values

/-- The method `BatchRequest.MarshalJSON`: the bytes and the error returned,
and the request value as the call leaves it. The struct that is marshalled
has the field `Body string` at index 0 and embeds `*Alias` at index 1,
whose fields `Method`, `Path` and `Body url.Values` have the index
sequences `[1,0]`, `[1,1]` and `[1,2]`; every field carries a tag. -/
def BatchRequest.MarshalJSON (br : BatchRequest) :
    (String × Option GoError) × BatchRequest :=
  let encoded := br.Body.Encode
  let br : BatchRequest := { br with Body := encoded.2 }
  let out := marshalStruct
    [ { name := utf8 "body", index := [0], tagged := true, value := FieldValue.str encoded.1 },
      { name := utf8 "method", index := [1, 0], tagged := true
        value := FieldValue.str br.Method },
      { name := utf8 "relative_url", index := [1, 1], tagged := true
        value := FieldValue.str br.Path },
      { name := utf8 "body", index := [1, 2], tagged := true
        value := FieldValue.values br.Body } ]
  ((out, none), br)

/-! ## Vocabulary for the statements about bodies and errors -/

/-- Whether the `k`-th delegate call returns a response without error whose
status is 500 or more: the case in which the closure reads and closes the
body. -/
def serverError (t : retryTransport) (r : Request) (k : Nat) : Bool :=
  match t.next.RoundTrip r k with
  | (some rs, none) => decide (500 ≤ rs.StatusCode)
  | _ => false

/-- The events of the `k`-th run of the closure: the delegate call, followed
by the reading and the closing of the body when the call returned a server
error. -/
def callEvents (t : retryTransport) (r : Request) (k : Nat) : List Event :=
  if serverError t r k then [Event.call k, Event.readAll k, Event.close k] else [Event.call k]

/-- The events of the first `n` runs of the closure, in order. -/
def eventsUpTo (t : retryTransport) (r : Request) : Nat → List Event
  | 0 => []
  | n + 1 => eventsUpTo t r n ++ callEvents t r (n + 1)

/-- How the closure ends its run number `attempt` when the delegate returned
`res`: with the error of the attempt if there is one, with a panic when the
delegate returned neither response nor error, without error otherwise. -/
def opResultOf (res : Option Response × Option GoError) (attempt : Nat) : OpResult :=
  match attemptError res attempt with
  | some e => OpResult.fail e
  | none =>
    match res.1 with
    | none => OpResult.panic
    | some _ => OpResult.ok

/-- The text of the error built for a response with status 500 or more at
the given attempt. -/
def statusMessage (rs : Response) (attempt : Nat) : String :=
  match rs.Body.readErr with
  | none =>
    "unexpected status " ++ rs.Status ++ " from facebook, body: " ++ rs.Body.data
      ++ ", attempt " ++ toString attempt
  | some _ =>
    "unexpected status " ++ rs.Status ++ " from facebook, attempt " ++ toString attempt

/-- What holds of the state of a run between two runs of the closure: the
two counters agree and the events are those of the calls made. -/
structure Consistent (t : retryTransport) (r : Request) (st : State) : Prop where
  hattempt : st.attempt = st.calls
  hevents : st.events = eventsUpTo t r st.calls

/-- How a finished retry loop relates to the last delegate call: the state
is consistent, the variable `resp` holds what the last call returned, and
the result is a nil error after a response under 500, the error of the last
attempt when that error is not a `*backoff.PermanentError`, the error wrapped
in the `*backoff.PermanentError` that the last call returned, or a panic after
a call that returned neither response nor error. -/
def EndsWell (t : retryTransport) (r : Request) (st : State) (res : RetryResult) : Prop :=
  Consistent t r st ∧ 1 ≤ st.calls
    ∧ st.resp = (t.next.RoundTrip r st.calls).1
    ∧ (match res with
       | RetryResult.returned eo =>
         (∃ rs, t.next.RoundTrip r st.calls = (some rs, none) ∧ rs.StatusCode < 500
            ∧ eo = none)
         ∨ (∃ e, attemptError (t.next.RoundTrip r st.calls) st.calls = some e
            ∧ e.asPermanent = none ∧ eo = some e)
         ∨ (∃ inner, (t.next.RoundTrip r st.calls).2 = some (GoError.permanent inner)
            ∧ eo = inner)
       | RetryResult.panicked => t.next.RoundTrip r st.calls = (none, none))

/-! ## Concrete runs used to exercise the statements -/

/-- A response with status 200. -/
def okResponse : Response :=
  { StatusCode := 200, Status := "200 OK", Body := { data := "\x7b\x7d", readErr := none } }

/-- A response with status 503 whose body reads as `oops`. -/
def unavailableResponse : Response :=
  { StatusCode := 503
    Status := "503 Service Unavailable"
    Body := { data := "oops", readErr := none } }

/-- A delegate that answers 200 at once. -/
def healthyTransport : retryTransport :=
  { next := { RoundTrip := fun _ _ => (some okResponse, none) } }

/-- A delegate that answers 503 twice and 200 from the third call on. -/
def flakyTransport : retryTransport :=
  { next :=
      { RoundTrip := fun _ k =>
          if k ≤ 2 then (some unavailableResponse, none) else (some okResponse, none) } }

/-- A delegate whose every call fails with a transport error. -/
def brokenTransport : retryTransport :=
  { next := { RoundTrip := fun _ _ => (none, some (GoError.other "connection refused")) } }

/-- Calls take 100 ms; the draws of the random source are 0, 12345, 24690, ... -/
def steadyWorld : World :=
  { latency := fun _ => 100 * Millisecond, random := fun i => 12345 * i }

/-- A request whose context is never done. -/
def liveRequest : Request :=
  { Method := "GET", URL := "https://graph.facebook.com/v1/me", ctx := { doneAt := none } }

/-- A request whose context is cancelled one second after `RoundTrip` starts. -/
def cancelledRequest : Request :=
  { Method := "GET", URL := "https://graph.facebook.com/v1/me"
    ctx := { doneAt := some (1 * Second) } }

/-- A request whose context has a deadline five seconds after `RoundTrip` starts. -/
def deadlineRequest : Request :=
  { Method := "GET", URL := "https://graph.facebook.com/v1/me"
    ctx := { doneAt := none, deadline := some (5 * Second) } }

/-- A `BatchResponse` that already holds data, to observe what a decode
leaves in place. -/
def usedResponse : BatchResponse := { Code := 7, Body := Any.string "old" }

/-- The `Error` written in the payload
`{"error": {"message":"x","type":"OAuthException","code":190}}`. -/
def oauthError : Error :=
  { Error.zero with Message := "x", Type_ := "OAuthException", Code := 190 }

/-- A response with status 502 whose body cannot be read to the end. -/
def unreadableResponse : Response :=
  { StatusCode := 502
    Status := "502 Bad Gateway"
    Body := { data := "par", readErr := some (GoError.other "unexpected EOF") } }

/-- A delegate that always answers 502 with a body that cannot be read. -/
def unreadableTransport : retryTransport :=
  { next := { RoundTrip := fun _ _ => (some unreadableResponse, none) } }

/-- A batch request with two parameters, `b` inserted before `a`. -/
def adRequest : BatchRequest :=
  { Method := utf8 "POST", Path := utf8 "act_1/ads"
    Body := [(utf8 "b", [utf8 "2"]), (utf8 "a", [utf8 "1", utf8 "3"])] }

/-- A batch request whose method is the single byte `0xFF`, which is not valid
UTF-8. -/
def rawRequest : BatchRequest :=
  { Method := [0xFF], Path := utf8 "act_1/ads", Body := [] }

/-- The same batch request with the parameters inserted in the other order. -/
def adRequestReordered : BatchRequest :=
  { Method := utf8 "POST", Path := utf8 "act_1/ads"
    Body := [(utf8 "a", [utf8 "1", utf8 "3"]), (utf8 "b", [utf8 "2"])] }

/-! # Theorems -/

/-! ## The retry loop, step by step -/

theorem operation_ok (t : retryTransport) (w : World) (r : Request) (st : State)
    (rs : Response) (h : t.next.RoundTrip r (st.calls + 1) = (some rs, none))
    (hs : rs.StatusCode < 500) :
    operation t w r st =
      ({ now := st.now + w.latency (st.calls + 1)
         calls := st.calls + 1
         events := st.events ++ [Event.call (st.calls + 1)]
         resp := some rs
         attempt := st.attempt + 1 }, OpResult.ok) := by
  have hn : ¬ (500 ≤ rs.StatusCode) := not_le.mpr hs
  simp [operation, h, hn]

theorem operation_fail (t : retryTransport) (w : World) (r : Request) (st : State)
    (h : retryable (t.next.RoundTrip r (st.calls + 1)) = true) :
    ∃ st1 err, operation t w r st = (st1, OpResult.fail err)
      ∧ st1.now = st.now + w.latency (st.calls + 1)
      ∧ st1.calls = st.calls + 1
      ∧ st1.attempt = st.attempt + 1
      ∧ attemptError (t.next.RoundTrip r (st.calls + 1)) (st.attempt + 1) = some err
      ∧ err.asPermanent = none := by
  rcases hres : t.next.RoundTrip r (st.calls + 1) with ⟨resp, e⟩
  rw [hres] at h
  cases e with
  | some e =>
    have hp : e.asPermanent = none := by
      cases resp <;> simpa [retryable] using h
    simp only [operation, hres]
    exact ⟨_, _, rfl, rfl, rfl, rfl, by cases resp <;> rfl, hp⟩
  | none =>
    cases resp with
    | none => simp [retryable] at h
    | some rs =>
      have hs : 500 ≤ rs.StatusCode := by simpa [retryable] using h
      cases hb : rs.Body.readErr with
      | none =>
        simp only [operation, hres, hs, ReadAll, hb, attemptError, if_true]
        exact ⟨_, _, rfl, rfl, rfl, rfl, rfl, rfl⟩
      | some e2 =>
        simp only [operation, hres, hs, ReadAll, hb, attemptError, if_true]
        exact ⟨_, _, rfl, rfl, rfl, rfl, rfl, rfl⟩

theorem policyAt_fields (i : Nat) :
    (policyAt i).MaxElapsedTime = 10 * Minute ∧ (policyAt i).startTime = 0
      ∧ (policyAt i).MaxInterval = 60 * Second
      ∧ 6 * Second ≤ (policyAt i).currentInterval
      ∧ (policyAt i).currentInterval ≤ 60 * Second := by
  induction i with
  | zero => decide
  | succ i ih =>
    obtain ⟨h1, h2, h3, h4, h5⟩ := ih
    simp only [policyAt, ExponentialBackOff.incrementCurrentInterval]
    split
    · refine ⟨h1, h2, h3, ?_, ?_⟩ <;> simp [h3, Second]
    · rename_i hlt
      refine ⟨h1, h2, h3, ?_, ?_⟩
      · simp only [Second] at h4 ⊢
        omega
      · simp only [Second, h3] at hlt h5 ⊢
        omega

theorem delayAt_ge (w : World) (i : Nat) : 3 * Second ≤ delayAt w i := by
  obtain ⟨_, _, _, h4, _⟩ := policyAt_fields i
  simp only [delayAt, getRandomValueFromInterval, Second] at h4 ⊢
  omega

theorem checkTime_succ (w : World) (i : Nat) :
    checkTime w (i + 1) = wakeTime w i + w.latency (i + 1) := by
  simp [checkTime]

theorem reached_mono (at_ : Option Nat) {a b : Nat} (hab : a ≤ b)
    (h : reached at_ b = false) : reached at_ a = false := by
  unfold reached at h ⊢
  cases at_ with
  | none => rfl
  | some c =>
    simp only [decide_eq_false_iff_not, not_le] at h ⊢
    omega

theorem Done_mono (ctx : Context) {a b : Nat} (hab : a ≤ b) (h : ctx.Done b = false) :
    ctx.Done a = false := by
  unfold Context.Done at h ⊢
  rw [Bool.or_eq_false_iff] at h ⊢
  exact ⟨reached_mono _ hab h.1, reached_mono _ hab h.2⟩

/-- A context that is not done at the end of a wait has no deadline within the wait. -/
theorem deadlineWithin_of_live (ctx : Context) (now next : Nat)
    (h : ctx.Done (now + next) = false) : ctx.deadlineWithin now next = false := by
  unfold Context.Done at h
  rw [Bool.or_eq_false_iff] at h
  have h2 := h.2
  unfold reached at h2
  unfold Context.deadlineWithin
  cases hd : ctx.deadline with
  | none => rfl
  | some d =>
    rw [hd] at h2
    simp only [decide_eq_false_iff_not, not_le] at h2 ⊢
    omega

/-- A deadline within the wait means a context that is done at the end of the wait. -/
theorem Done_of_deadlineWithin (ctx : Context) (now next : Nat)
    (h : ctx.deadlineWithin now next = true) : ctx.Done (now + next) = true := by
  cases hd : ctx.Done (now + next) with
  | true => rfl
  | false => rw [deadlineWithin_of_live ctx now next hd] at h; cases h

/-- The answer of the policy when the context is live and the budget holds: the delay,
or `Stop` when the deadline is nearer than the delay. -/
theorem nextBackOff_within (b : backOffContext) (i now rnd : Nat)
    (hbo : b.BackOff = policyAt i) (hd : b.ctx.Done now = false) (hn : now ≤ 10 * Minute) :
    b.NextBackOff now rnd =
      if b.ctx.deadlineWithin now (getRandomValueFromInterval rnd (policyAt i).currentInterval)
      then (none, { b with BackOff := policyAt (i + 1) })
      else (some (getRandomValueFromInterval rnd (policyAt i).currentInterval),
        { b with BackOff := policyAt (i + 1) }) := by
  obtain ⟨h1, h2, _, _, _⟩ := policyAt_fields i
  have : ¬ (10 * Minute < now) := not_lt.mpr hn
  simp [backOffContext.NextBackOff, hd, ExponentialBackOff.NextBackOff, hbo, h1, h2,
    ExponentialBackOff.GetElapsedTime, this, policyAt]

theorem nextBackOff_go (b : backOffContext) (i now rnd : Nat) (hbo : b.BackOff = policyAt i)
    (hd : b.ctx.Done (now + getRandomValueFromInterval rnd (policyAt i).currentInterval)
      = false)
    (hn : now ≤ 10 * Minute) :
    b.NextBackOff now rnd =
      (some (getRandomValueFromInterval rnd (policyAt i).currentInterval),
        { b with BackOff := policyAt (i + 1) }) := by
  rw [nextBackOff_within b i now rnd hbo (Done_mono b.ctx (Nat.le_add_right _ _) hd) hn,
    deadlineWithin_of_live b.ctx now _ hd]
  rfl

theorem nextBackOff_stop (b : backOffContext) (i now rnd : Nat) (hbo : b.BackOff = policyAt i)
    (h : b.ctx.Done now = true ∨ 10 * Minute < now) :
    (b.NextBackOff now rnd).1 = none := by
  obtain ⟨h1, h2, _, _, _⟩ := policyAt_fields i
  unfold backOffContext.NextBackOff
  cases hd : b.ctx.Done now with
  | true => simp
  | false =>
    have hn : 10 * Minute < now := by
      rcases h with h | h
      · rw [hd] at h; cases h
      · exact h
    have hm : (10 * Minute) ≠ 0 := by decide
    simp [ExponentialBackOff.NextBackOff, hbo, h1, h2, ExponentialBackOff.GetElapsedTime, hn, hm]

/-- A retryable call followed by a wait during which nothing stops the loop takes the
loop to its next iteration. -/
theorem RetryLoop_retry (t : retryTransport) (w : World) (r : Request) (fuel i : Nat)
    (b : backOffContext) (st : State) (inv : AtWake w r i b st)
    (hr : retryable (t.next.RoundTrip r (i + 1)) = true)
    (hbudget : checkTime w (i + 1) ≤ 10 * Minute)
    (hlive : r.Context.Done (wakeTime w (i + 1)) = false) :
    ∃ b1 st1, AtWake w r (i + 1) b1 st1 ∧
      RetryLoop (operation t w r) w (fuel + 1) i b st
        = RetryLoop (operation t w r) w fuel (i + 1) b1 st1 := by
  obtain ⟨hctx, hbo, hcalls, hattempt, hnow⟩ := inv
  rw [← hcalls] at hr
  obtain ⟨st1, err, hop, h1, h2, h3, _, hperm⟩ := operation_fail t w r st hr
  have hnow1 : st1.now = checkTime w (i + 1) := by
    rw [h1, hnow, hcalls, checkTime_succ]
  have hwake : st1.now + delayAt w i = wakeTime w (i + 1) := by
    rw [hnow1, checkTime_succ]; rfl
  have hd2 : b.ctx.Done (st1.now + getRandomValueFromInterval (w.random i)
      (policyAt i).currentInterval) = false := by
    rw [hctx]; exact hwake ▸ hlive
  have hnb := nextBackOff_go b i st1.now (w.random i) hbo hd2 (by rw [hnow1]; exact hbudget)
  refine ⟨{ b with BackOff := policyAt (i + 1) },
    { st1 with now := st1.now + delayAt w i }, ⟨hctx, rfl, ?_, ?_, hwake⟩, ?_⟩
  · simp [h2, hcalls]
  · simp [h3, hattempt]
  · simp only [RetryLoop, hop, hperm, hnb, hd2]
    rfl

/-- A retryable call after which the context is done by the end of the wait, or after
which the budget is found exceeded, ends the loop with the error of that call. -/
theorem RetryLoop_giveUp (t : retryTransport) (w : World) (r : Request) (fuel i : Nat)
    (b : backOffContext) (st : State) (inv : AtWake w r i b st)
    (hr : retryable (t.next.RoundTrip r (i + 1)) = true)
    (hstop : 10 * Minute < checkTime w (i + 1) ∨ r.Context.Done (wakeTime w (i + 1)) = true) :
    ∃ st1 err, RetryLoop (operation t w r) w (fuel + 1) i b st
        = some (st1, RetryResult.returned (some err))
      ∧ st1.calls = i + 1
      ∧ attemptError (t.next.RoundTrip r (i + 1)) (i + 1) = some err := by
  obtain ⟨hctx, hbo, hcalls, hattempt, hnow⟩ := inv
  rw [← hcalls] at hr
  obtain ⟨st1, err, hop, h1, h2, h3, h4, hperm⟩ := operation_fail t w r st hr
  have hnow1 : st1.now = checkTime w (i + 1) := by
    rw [h1, hnow, hcalls, checkTime_succ]
  have hwake : st1.now + delayAt w i = wakeTime w (i + 1) := by
    rw [hnow1, checkTime_succ]; rfl
  refine ⟨st1, err, ?_, by rw [h2, hcalls], by rw [← h4, hcalls, hattempt]⟩
  by_cases hgo : b.ctx.Done st1.now = false ∧ st1.now ≤ 10 * Minute
  · have hnb := nextBackOff_within b i st1.now (w.random i) hbo hgo.1 hgo.2
    have hd2 : b.ctx.Done (st1.now + getRandomValueFromInterval (w.random i)
        (policyAt i).currentInterval) = true := by
      rcases hstop with h | h
      · rw [hnow1] at hgo; omega
      · rw [hctx]; exact hwake ▸ h
    cases hw : b.ctx.deadlineWithin st1.now
        (getRandomValueFromInterval (w.random i) (policyAt i).currentInterval) with
    | true =>
      rw [hw] at hnb
      simp only [RetryLoop, hop, hperm, hnb, if_true]
    | false =>
      rw [hw] at hnb
      simp only [RetryLoop, hop, hperm, hnb, hd2, Bool.false_eq_true, if_false, if_true]
  · have hs : (b.NextBackOff st1.now (w.random i)).1 = none := by
      apply nextBackOff_stop b i _ _ hbo
      by_cases hd : b.ctx.Done st1.now = true
      · exact Or.inl hd
      · right
        have : b.ctx.Done st1.now = false := by simpa using hd
        by_contra hc
        exact hgo ⟨this, not_lt.mp hc⟩
    rcases hnb : b.NextBackOff st1.now (w.random i) with ⟨nx, b1⟩
    rw [hnb] at hs
    simp only at hs
    subst hs
    simp only [RetryLoop, hop, hperm, hnb]

theorem atWake_start (w : World) (r : Request) : AtWake w r 0 (startBackOff r) startState :=
  ⟨rfl, rfl, rfl, rfl, rfl⟩

theorem RoundTrip_eq (t : retryTransport) (w : World) (fuel : Nat) (r : Request) :
    t.RoundTrip w fuel r =
      match RetryLoop (operation t w r) w fuel 0 (startBackOff r) startState with
      | none => none
      | some (st, RetryResult.panicked) =>
        some { outcome := Outcome.panic, calls := st.calls, events := st.events }
      | some (st, RetryResult.returned (some err)) =>
        some { outcome := Outcome.ret none (some err), calls := st.calls, events := st.events }
      | some (st, RetryResult.returned none) =>
        some { outcome := Outcome.ret st.resp none, calls := st.calls, events := st.events } :=
  rfl

/-- While the calls are retryable, the budget holds and the context is live, the loop
moves on from iteration to iteration. -/
theorem RetryLoop_prefix (t : retryTransport) (w : World) (r : Request) (n : Nat) :
    ∀ (fuel i : Nat) (b : backOffContext) (st : State), AtWake w r i b st →
      (∀ k, i < k → k ≤ i + n → retryable (t.next.RoundTrip r k) = true) →
      (∀ k, i < k → k ≤ i + n → checkTime w k ≤ 10 * Minute) →
      (∀ k, i < k → k ≤ i + n → r.Context.Done (wakeTime w k) = false) →
      ∃ b1 st1, AtWake w r (i + n) b1 st1 ∧
        RetryLoop (operation t w r) w (fuel + n) i b st
          = RetryLoop (operation t w r) w fuel (i + n) b1 st1 := by
  induction n with
  | zero =>
    intro fuel i b st inv _ _ _
    exact ⟨b, st, inv, rfl⟩
  | succ n ih =>
    intro fuel i b st inv hr hb hl
    obtain ⟨b1, st1, inv1, h1⟩ := RetryLoop_retry t w r (fuel + n) i b st inv
      (hr (i + 1) (by omega) (by omega)) (hb (i + 1) (by omega) (by omega))
      (hl (i + 1) (by omega) (by omega))
    obtain ⟨b2, st2, inv2, h2⟩ := ih fuel (i + 1) b1 st1 inv1
      (fun k h1 h2 => hr k (by omega) (by omega))
      (fun k h1 h2 => hb k (by omega) (by omega))
      (fun k h1 h2 => hl k (by omega) (by omega))
    refine ⟨b2, st2, ?_, ?_⟩
    · have : i + (n + 1) = i + 1 + n := by omega
      rw [this]; exact inv2
    · have e1 : fuel + (n + 1) = fuel + n + 1 := by omega
      have e2 : i + (n + 1) = i + 1 + n := by omega
      rw [e1, e2, h1, h2]

/-- A call that ends without error and with a status under 500 ends the loop. -/
theorem RetryLoop_success (t : retryTransport) (w : World) (r : Request) (fuel i : Nat)
    (b : backOffContext) (st : State) (inv : AtWake w r i b st) (rs : Response)
    (h : t.next.RoundTrip r (i + 1) = (some rs, none)) (hs : rs.StatusCode < 500) :
    RetryLoop (operation t w r) w (fuel + 1) i b st
      = some ({ now := st.now + w.latency (i + 1)
                calls := i + 1
                events := st.events ++ [Event.call (i + 1)]
                resp := some rs
                attempt := st.attempt + 1 }, RetryResult.returned none) := by
  obtain ⟨_, _, hcalls, _, _⟩ := inv
  rw [← hcalls] at h
  have hop := operation_ok t w r st rs h hs
  simp only [RetryLoop, hop, hcalls]

/-- C1: when the first delegate call returns no error and a response with a
status under 500, `RoundTrip` calls the delegate exactly once, neither reads
nor closes the body, and returns that very response with a nil error. -/
theorem RoundTrip_first_call_terminal (t : retryTransport) (w : World) (r : Request)
    (fuel : Nat) (rs : Response)
    (hfirst : t.next.RoundTrip r 1 = (some rs, none)) (hstatus : rs.StatusCode < 500) :
    t.RoundTrip w (fuel + 1) r
      = some { outcome := Outcome.ret (some rs) none, calls := 1, events := [Event.call 1] } := by
  rw [RoundTrip_eq, RetryLoop_success t w r fuel 0 _ _ (atWake_start w r) rs hfirst hstatus]
  rfl

theorem wakeTime_ge (w : World) (k : Nat) : 3 * Second * k ≤ wakeTime w k := by
  induction k with
  | zero => simp [wakeTime]
  | succ k ih =>
    have := delayAt_ge w k
    simp only [wakeTime]
    rw [Nat.mul_succ]
    omega

theorem wakeTime_le_checkTime (w : World) (i : Nat) : wakeTime w i ≤ checkTime w (i + 1) := by
  rw [checkTime_succ]; exact Nat.le_add_right _ _

theorem attemptError_of_err (res : Option Response × Option GoError) (n : Nat) (e : GoError)
    (h : res.2 = some e) : attemptError res n = some e := by
  obtain ⟨resp, err⟩ := res
  simp only at h
  subst h
  cases resp <;> rfl

theorem retryable_of_err (res : Option Response × Option GoError) (e : GoError)
    (h : res.2 = some e) (hp : e.asPermanent = none) : retryable res = true := by
  obtain ⟨resp, err⟩ := res
  simp only at h
  subst h
  cases resp <;> simp [retryable, hp]

/-- No wait is longer than 90 seconds and a nanosecond. -/
theorem delayAt_le (w : World) (i : Nat) : delayAt w i ≤ 90 * Second + 1 := by
  obtain ⟨_, _, _, _, h5⟩ := policyAt_fields i
  have hm := Nat.mod_lt (w.random i)
    (show 0 < (policyAt i).currentInterval + ((policyAt i).currentInterval + 1) / 2
      - (policyAt i).currentInterval / 2 + 2 by omega)
  simp only [delayAt, getRandomValueFromInterval, Second] at h5 hm ⊢
  omega

/-- A wait that starts within the budget ends at most 90 seconds and a nanosecond
after the budget. -/
theorem wakeTime_le_budget (w : World) (k : Nat) (hk : 1 ≤ k)
    (h : checkTime w k ≤ 10 * Minute) : wakeTime w k ≤ 10 * Minute + 90 * Second + 1 := by
  obtain ⟨i, rfl⟩ : ∃ i, k = i + 1 := ⟨k - 1, by omega⟩
  have hd := delayAt_le w i
  rw [checkTime_succ] at h
  simp only [wakeTime]
  omega

/-- When every call is retryable the loop ends: with `fuel + 1` iterations left and
three seconds per iteration reaching past the budget, it gives up after some call `n`,
with the error of that call. -/
theorem RetryLoop_gives_up (t : retryTransport) (w : World) (r : Request)
    (hr : ∀ k, 1 ≤ k → retryable (t.next.RoundTrip r k) = true) (fuel : Nat) :
    ∀ (i : Nat) (b : backOffContext) (st : State), AtWake w r i b st →
      (∀ k, 1 ≤ k → k ≤ i → checkTime w k ≤ 10 * Minute) →
      10 * Minute + 3 * Second < 3 * Second * (fuel + 1) + wakeTime w i →
      ∃ n st1 err, i < n
        ∧ RetryLoop (operation t w r) w (fuel + 1) i b st
            = some (st1, RetryResult.returned (some err))
        ∧ st1.calls = n
        ∧ attemptError (t.next.RoundTrip r n) n = some err
        ∧ (∀ k, 1 ≤ k → k < n → checkTime w k ≤ 10 * Minute)
        ∧ ((∀ now, r.Context.Done now = false) → 10 * Minute < checkTime w n) := by
  induction fuel with
  | zero =>
    intro i b st inv hpast hfuel
    have hlt : 10 * Minute < checkTime w (i + 1) := by
      have := wakeTime_le_checkTime w i
      omega
    obtain ⟨st1, err, h1, h2, h3⟩ := RetryLoop_giveUp t w r 0 i b st inv
      (hr (i + 1) (by omega)) (Or.inl hlt)
    exact ⟨i + 1, st1, err, by omega, h1, h2, h3,
      fun k hk1 hk2 => hpast k hk1 (by omega), fun _ => hlt⟩
  | succ fuel ih =>
    intro i b st inv hpast hfuel
    by_cases hstop : 10 * Minute < checkTime w (i + 1)
        ∨ r.Context.Done (wakeTime w (i + 1)) = true
    · obtain ⟨st1, err, h1, h2, h3⟩ := RetryLoop_giveUp t w r (fuel + 1) i b st inv
        (hr (i + 1) (by omega)) hstop
      refine ⟨i + 1, st1, err, by omega, h1, h2, h3,
        fun k hk1 hk2 => hpast k hk1 (by omega), fun hnone => ?_⟩
      rcases hstop with h | h
      · exact h
      · rw [hnone] at h; cases h
    · have hb : checkTime w (i + 1) ≤ 10 * Minute := by
        by_contra hc; exact hstop (Or.inl (not_le.mp hc))
      have hl : r.Context.Done (wakeTime w (i + 1)) = false := by
        cases hd : r.Context.Done (wakeTime w (i + 1)) with
        | false => rfl
        | true => exact absurd (Or.inr hd) hstop
      obtain ⟨b1, st1, inv1, h1⟩ := RetryLoop_retry t w r (fuel + 1) i b st inv
        (hr (i + 1) (by omega)) hb hl
      have hw : wakeTime w i + 3 * Second ≤ wakeTime w (i + 1) := by
        have := delayAt_ge w i
        simp only [wakeTime]
        omega
      obtain ⟨n, st2, err, hn, h2, h3, h4, h5, h6⟩ := ih (i + 1) b1 st1 inv1
        (fun k hk1 hk2 => by
          by_cases hk : k ≤ i
          · exact hpast k hk1 hk
          · have : k = i + 1 := by omega
            rw [this]; exact hb)
        (by rw [Nat.mul_succ] at hfuel; omega)
      exact ⟨n, st2, err, by omega, by rw [h1, h2], h3, h4, h5, h6⟩

/-- C3 (amended): when the context is done by the end of the wait that
follows the `k`-th delegate call (and was not done, nor the budget exceeded,
before), `RoundTrip` makes no further delegate call and returns a nil
response together with the error of the `k`-th attempt. -/
theorem RoundTrip_cancelled_returns_attempt_error (t : retryTransport) (w : World)
    (r : Request) (k fuel : Nat) (hk : 1 ≤ k)
    (hretry : ∀ j, 1 ≤ j → j ≤ k → retryable (t.next.RoundTrip r j) = true)
    (hbudget : ∀ j, 1 ≤ j → j < k → checkTime w j ≤ 10 * Minute)
    (hlive : ∀ j, 1 ≤ j → j < k → r.Context.Done (wakeTime w j) = false)
    (hcancel : r.Context.Done (wakeTime w k) = true)
    (hfuel : k ≤ fuel) :
    ∃ run err, t.RoundTrip w fuel r = some run
      ∧ run.outcome = Outcome.ret none (some err)
      ∧ run.calls = k
      ∧ attemptError (t.next.RoundTrip r k) k = some err := by
  obtain ⟨i, rfl⟩ : ∃ i, k = i + 1 := ⟨k - 1, by omega⟩
  obtain ⟨f, rfl⟩ : ∃ f, fuel = f + 1 + i := ⟨fuel - 1 - i, by omega⟩
  obtain ⟨b1, st1, inv1, h1⟩ := RetryLoop_prefix t w r i (f + 1) 0 _ _ (atWake_start w r)
    (fun j h1 h2 => hretry j (by omega) (by omega))
    (fun j h1 h2 => hbudget j (by omega) (by omega))
    (fun j h1 h2 => hlive j (by omega) (by omega))
  rw [Nat.zero_add] at h1 inv1
  obtain ⟨st2, err, h2, h3, h4⟩ := RetryLoop_giveUp t w r f i b1 st1 inv1
    (hretry (i + 1) (by omega) (by omega)) (Or.inr hcancel)
  refine ⟨{ outcome := Outcome.ret none (some err), calls := st2.calls, events := st2.events },
    err, ?_, rfl, h3, h4⟩
  rw [RoundTrip_eq, h1, h2]

/-- C4 (amended): when the delegate returns on every call a transport error that is
not a `*backoff.PermanentError`, `RoundTrip` terminates (202 iterations always
suffice): it returns a nil response and the error of the last delegate call, call
number `n`. The budget is tested only right after a failed call: every call before
the last was followed by a policy check that found the elapsed time within the
10-minute budget and by a wait that ended at most 90 seconds and a nanosecond after
the budget, which bounds the instant at which any call starts; the first check that
finds the budget exceeded ends the run without a further call; and when the context
is never done, the last check did find the elapsed time over 10 minutes. -/
theorem RoundTrip_always_failing_gives_up (t : retryTransport) (w : World) (r : Request)
    (fuel : Nat)
    (herr : ∀ k, 1 ≤ k → ∃ e, (t.next.RoundTrip r k).2 = some e ∧ e.asPermanent = none)
    (hfuel : 202 ≤ fuel) :
    ∃ run n err, t.RoundTrip w fuel r = some run
      ∧ run.outcome = Outcome.ret none (some err)
      ∧ run.calls = n ∧ 1 ≤ n ∧ n ≤ 202
      ∧ (t.next.RoundTrip r n).2 = some err
      ∧ (∀ k, 1 ≤ k → k < n → checkTime w k ≤ 10 * Minute)
      ∧ (∀ k, 1 ≤ k → k < n → wakeTime w k ≤ 10 * Minute + 90 * Second + 1)
      ∧ ((∀ now, r.Context.Done now = false) → 10 * Minute < checkTime w n) := by
  obtain ⟨f, rfl⟩ : ∃ f, fuel = f + 1 := ⟨fuel - 1, by omega⟩
  have hr : ∀ k, 1 ≤ k → retryable (t.next.RoundTrip r k) = true := fun k hk => by
    obtain ⟨e, he, hp⟩ := herr k hk
    exact retryable_of_err _ e he hp
  obtain ⟨n, st1, err, hn, h1, h2, h3, h4, h5⟩ := RetryLoop_gives_up t w r hr f 0 _ _
    (atWake_start w r) (fun k hk1 hk2 => by omega)
    (by simp only [wakeTime, Minute, Second]; omega)
  have herrn : (t.next.RoundTrip r n).2 = some err := by
    obtain ⟨e, he, _⟩ := herr n (by omega)
    rw [attemptError_of_err _ n e he] at h3
    rw [he, h3]
  have hn202 : n ≤ 202 := by
    by_contra hc
    have hc1 : checkTime w (n - 1) ≤ 10 * Minute := h4 (n - 1) (by omega) (by omega)
    have hc2 := wakeTime_ge w (n - 2)
    have hc3 := wakeTime_le_checkTime w (n - 2)
    have hc4 : n - 2 + 1 = n - 1 := by omega
    rw [hc4] at hc3
    have hc5 : 3 * Second * 201 ≤ 3 * Second * (n - 2) := Nat.mul_le_mul_left _ (by omega)
    simp only [Minute, Second] at hc1 hc2 hc3 hc5
    omega
  refine ⟨{ outcome := Outcome.ret none (some err), calls := st1.calls, events := st1.events },
    n, err, ?_, rfl, h2, by omega, hn202, herrn, h4,
    fun k hk1 hk2 => wakeTime_le_budget w k hk1 (h4 k hk1 hk2), h5⟩
  rw [RoundTrip_eq, h1]

/-- Witness for C1: a delegate that answers 200 at once is called once. -/
theorem RoundTrip_first_call_terminal_witness :
    healthyTransport.next.RoundTrip liveRequest 1 = (some okResponse, none)
      ∧ okResponse.StatusCode < 500
      ∧ healthyTransport.RoundTrip steadyWorld (0 + 1) liveRequest
          = some { outcome := Outcome.ret (some okResponse) none, calls := 1
                   events := [Event.call 1] } :=
  ⟨rfl, by decide,
    RoundTrip_first_call_terminal healthyTransport steadyWorld liveRequest 0 okResponse rfl
      (by decide)⟩

/-- Counterexample for C3 as stated: the context is cancelled one second after the
start, while `RoundTrip` waits after a first 503 answer. The error returned is the
error of that attempt, which is not a cancellation error. -/
theorem RoundTrip_cancel_error_is_attempt_error :
    flakyTransport.RoundTrip steadyWorld 5 cancelledRequest
        = some
            { outcome := Outcome.ret none (some (GoError.errorString
                "unexpected status 503 Service Unavailable from facebook, body: oops, attempt 1"))
              calls := 1
              events := [Event.call 1, Event.readAll 1, Event.close 1] }
      ∧ attemptError (flakyTransport.next.RoundTrip cancelledRequest 1) 1
          = some (GoError.errorString
              "unexpected status 503 Service Unavailable from facebook, body: oops, attempt 1")
      ∧ GoError.isCancellation (GoError.errorString
          "unexpected status 503 Service Unavailable from facebook, body: oops, attempt 1")
          = false
      ∧ checkTime steadyWorld 1 < 1 * Second ∧ 1 * Second ≤ wakeTime steadyWorld 1 :=
  ⟨rfl, rfl, rfl, by decide, by decide⟩

/-- Witness for C3 (amended): cancellation during the first wait. -/
theorem RoundTrip_cancelled_returns_attempt_error_witness :
    ∃ run err, flakyTransport.RoundTrip steadyWorld 5 cancelledRequest = some run
      ∧ run.outcome = Outcome.ret none (some err)
      ∧ run.calls = 1
      ∧ attemptError (flakyTransport.next.RoundTrip cancelledRequest 1) 1 = some err :=
  RoundTrip_cancelled_returns_attempt_error flakyTransport steadyWorld cancelledRequest 1 5
    (by decide)
    (by intro j h1 h2; interval_cases j; rfl)
    (by intro j h1 h2; omega)
    (by intro j h1 h2; omega)
    (by decide)
    (by decide)

/-- Counterexample for C4 as stated: the delegate fails on every call, calls take
100 ms and the context is never done. The check after the 24th call finds 574.7 s
elapsed, within the budget; the wait that follows ends 604.7 s after the start, and
there the 25th delegate call is made, after the 10 minutes have passed. -/
theorem RoundTrip_calls_after_budget :
    brokenTransport.RoundTrip steadyWorld 202 liveRequest
        = some
            { outcome := Outcome.ret none (some (GoError.other "connection refused"))
              calls := 25
              events := (List.range 25).map (fun i => Event.call (i + 1)) }
      ∧ checkTime steadyWorld 24 ≤ 10 * Minute
      ∧ 10 * Minute < wakeTime steadyWorld 24
      ∧ (∀ k, (brokenTransport.next.RoundTrip liveRequest k).2
          = some (GoError.other "connection refused")) :=
  ⟨by rfl, by decide, by decide, fun _ => rfl⟩

/-- A deadline nearer than the next delay ends the run at the policy check: the second
503 answer comes 3.2 s after the start, the next delay would be 4.5 s and the deadline
is 1.8 s away, so the run returns the error of the second attempt without waiting. -/
theorem RoundTrip_stops_before_deadline :
    flakyTransport.RoundTrip steadyWorld 5 deadlineRequest
        = some
            { outcome := Outcome.ret none (some (GoError.errorString
                "unexpected status 503 Service Unavailable from facebook, body: oops, attempt 2"))
              calls := 2
              events := [Event.call 1, Event.readAll 1, Event.close 1, Event.call 2,
                Event.readAll 2, Event.close 2] }
      ∧ checkTime steadyWorld 2 < 5 * Second
      ∧ 5 * Second < checkTime steadyWorld 2 + delayAt steadyWorld 1 :=
  ⟨by rfl, by decide, by decide⟩

/-- Witness for C4 (amended): a delegate that always fails, under a live context. -/
theorem RoundTrip_always_failing_gives_up_witness :
    ∃ run n err, brokenTransport.RoundTrip steadyWorld 202 liveRequest = some run
      ∧ run.outcome = Outcome.ret none (some err)
      ∧ run.calls = n ∧ 1 ≤ n ∧ n ≤ 202
      ∧ (brokenTransport.next.RoundTrip liveRequest n).2 = some err
      ∧ (∀ k, 1 ≤ k → k < n → checkTime steadyWorld k ≤ 10 * Minute)
      ∧ (∀ k, 1 ≤ k → k < n → wakeTime steadyWorld k ≤ 10 * Minute + 90 * Second + 1)
      ∧ ((∀ now, liveRequest.Context.Done now = false)
          → 10 * Minute < checkTime steadyWorld n) :=
  RoundTrip_always_failing_gives_up brokenTransport steadyWorld liveRequest 202
    (fun _ _ => ⟨_, rfl, rfl⟩) (by decide)

/-! ## Error model -/

/-- C9: `IsNotFound(err)` is true exactly when `err` is a non-nil `*Error`
whose `Code` is 100 and whose `ErrorSubcode` is 33. It is false for the nil
error, for a nil `*Error` pointer and for every error value of another
dynamic type, and on a non-nil `*Error` it is the test of the two codes (so
code 100 with another subcode, or subcode 33 with another code, gives
false). The function is total: no input makes it panic. -/
theorem IsNotFound_iff (err : Option GoError) :
    (IsNotFound err = true ↔
      ∃ e : Error, err = some (GoError.fbError (some e)) ∧ e.Code = 100 ∧ e.ErrorSubcode = 33)
    ∧ IsNotFound none = false
    ∧ IsNotFound (some (GoError.fbError none)) = false
    ∧ (∀ e : Error, IsNotFound (some (GoError.fbError (some e)))
        = (decide (e.Code = 100) && decide (e.ErrorSubcode = 33)))
    ∧ (∀ msg, IsNotFound (some (GoError.errorString msg)) = false)
    ∧ IsNotFound (some GoError.contextCanceled) = false
    ∧ IsNotFound (some GoError.deadlineExceeded) = false
    ∧ IsNotFound (some GoError.jsonSyntax) = false
    ∧ (∀ value, IsNotFound (some (GoError.jsonType value)) = false)
    ∧ (∀ desc, IsNotFound (some (GoError.other desc)) = false)
    ∧ (∀ inner, IsNotFound (some (GoError.permanent inner)) = false) := by
  refine ⟨?_, rfl, rfl, fun _ => rfl, fun _ => rfl, rfl, rfl, rfl, fun _ => rfl, fun _ => rfl,
    fun _ => rfl⟩
  constructor
  · intro h
    cases err with
    | none => simp [IsNotFound] at h
    | some g =>
      cases g with
      | fbError p =>
        cases p with
        | none => simp [IsNotFound] at h
        | some e =>
          simp only [IsNotFound, Bool.and_eq_true, decide_eq_true_eq] at h
          exact ⟨e, rfl, h.1, h.2⟩
      | _ => simp [IsNotFound] at h
  · rintro ⟨e, rfl, h1, h2⟩
    simp [IsNotFound, h1, h2]

/-- C10: `GetError` returns the nil error exactly when the container holds no
`Error`, and otherwise the `*Error` it holds. Decoding `{"error": null}`
(into any container), `{}` or an object without an `error` member (into an
empty container) gives a container whose `GetError()` is nil; decoding
`{"error": {"message":"x","type":"OAuthException","code":190}}` gives a
non-nil error that is the decoded `Error`, and its rendered message
contains `OAuthException` and `x`. -/
theorem GetError_nil_iff_no_error :
    (∀ ec : ErrorContainer, ec.GetError = none ↔ ec.Error = none)
    ∧ (∀ e : Error,
        ErrorContainer.GetError { Error := some e } = some (GoError.fbError (some e)))
    ∧ (∀ ec : ErrorContainer,
        ErrorContainer.unmarshal "\x7b\"error\": null\x7d" ec = ({ Error := none }, none))
    ∧ (ErrorContainer.unmarshal "\x7b\"error\": null\x7d" { Error := none }).1.GetError = none
    ∧ (ErrorContainer.unmarshal "\x7b\x7d" { Error := none }).1.GetError = none
    ∧ (ErrorContainer.unmarshal "\x7b\"data\": [1, 2]\x7d" { Error := none }).1.GetError = none
    ∧ ErrorContainer.unmarshal
          "\x7b\"error\": \x7b\"message\":\"x\",\"type\":\"OAuthException\",\"code\":190\x7d\x7d"
          { Error := none }
        = ({ Error := some oauthError }, none)
    ∧ ErrorContainer.GetError { Error := some oauthError }
        = some (GoError.fbError (some oauthError))
    ∧ oauthError.Error = "facebook: type='OAuthException' message='x' error_user_title=''"
    ∧ "OAuthException".toList <:+: oauthError.Error.toList
    ∧ "x".toList <:+: oauthError.Error.toList := by
  refine ⟨?_, fun e => rfl, fun ec => rfl, rfl, rfl, rfl, rfl, rfl, by decide, by decide,
    by decide⟩
  intro ec
  cases h : ec.Error <;> simp [ErrorContainer.GetError, h]

/-- C6: when the outer decode into `temp` fails with `err`, or succeeds and
the decode of the body string fails with `err`, `UnmarshalJSON` returns
`err` and the receiver keeps the `Code` and `Body` it had before the call. -/
theorem UnmarshalJSON_all_or_nothing (br : BatchResponse) (data : String) (err : GoError)
    (hfail :
      (BatchResponseTemp.unmarshal data { Code := 0, Body := "" }).2 = some err
      ∨ ((BatchResponseTemp.unmarshal data { Code := 0, Body := "" }).2 = none
          ∧ (unmarshalAny (BatchResponseTemp.unmarshal data { Code := 0, Body := "" }).1.Body
                Any.nil).2 = some err)) :
    br.UnmarshalJSON data = (br, some err) := by
  rcases h : BatchResponseTemp.unmarshal data { Code := 0, Body := "" } with ⟨temp, e1⟩
  rw [h] at hfail
  simp only at hfail
  rcases hfail with h1 | ⟨h1, h2⟩
  · subst h1
    simp only [BatchResponse.UnmarshalJSON, h]
  · subst h1
    rcases hb : unmarshalAny temp.Body Any.nil with ⟨body, e2⟩
    rw [hb] at h2
    simp only at h2
    subst h2
    simp only [BatchResponse.UnmarshalJSON, h, hb]

/-- C8: `MarshalJSON` leaves the request as it was: the parameter set (same
keys, same values in the same order), `Method` and `Path` are unchanged, so
encoding the request again gives the same bytes and error. -/
theorem MarshalJSON_leaves_request (br : BatchRequest) :
    br.MarshalJSON.2 = br
    ∧ br.MarshalJSON.2.Body = br.Body
    ∧ br.MarshalJSON.2.Method = br.Method
    ∧ br.MarshalJSON.2.Path = br.Path
    ∧ br.MarshalJSON.2.MarshalJSON = br.MarshalJSON :=
  ⟨rfl, rfl, rfl, rfl, rfl⟩

/-! ## Reading back what the encoder writes -/

set_option maxRecDepth 100000 in
theorem getu4_low (n : Nat) (h : n < 64) :
    getu4 '0' '0' (hexLower (n / 16)) (hexLower (n % 16)) = some n := by
  revert n
  decide

theorem scanString_u4 (fuel : Nat) (a b c d : Char) (tail : List Char) (n : Nat)
    (hg : getu4 a b c d = some n) (hs : ¬ (0xD800 ≤ n ∧ n < 0xE000)) :
    scanString (fuel + 1) ('\\' :: 'u' :: a :: b :: c :: d :: tail)
      = (scanString fuel tail).map fun p => (Char.ofNat n :: p.1, p.2) := by
  have hr : readEscape ('u' :: a :: b :: c :: d :: tail) = some (Char.ofNat n, tail) := by
    simp [readEscape, readU4, hg, hs]
  rw [scanString]
  simp only [hr]
  rfl

theorem scanString_plain (fuel : Nat) (c : Char) (tail : List Char) (h1 : c ≠ '"')
    (h2 : c ≠ '\\') (h3 : ¬ c.toNat < 0x20) :
    scanString (fuel + 1) (c :: tail) = (scanString fuel tail).map fun p => (c :: p.1, p.2) := by
  rw [scanString]
  simp only [h1, h2, h3, if_false]

/-- Reading back one written character. -/
theorem scanString_encodeChar (fuel : Nat) (c : Char) (tail : List Char) :
    scanString (fuel + 1) (encodeChar c ++ tail)
      = (scanString fuel tail).map fun p => (c :: p.1, p.2) := by
  unfold encodeChar
  split
  · rename_i h; subst h; rfl
  split
  · rename_i h; subst h; rfl
  split
  · rename_i h; subst h; rfl
  split
  · rename_i h; subst h; rfl
  split
  · rename_i h; subst h; rfl
  split
  · rename_i h; subst h; rfl
  split
  · rename_i h; subst h; rfl
  split
  · rename_i h1 h2 h3 h4 h5 h6 h7 h
    have hn : c.toNat < 64 := by
      rcases h with h | h | h | h
      · omega
      · subst h; decide
      · subst h; decide
      · subst h; decide
    have hg := getu4_low c.toNat hn
    have hc : Char.ofNat c.toNat = c := Char.ofNat_toNat c
    have hs : ¬ (0xD800 ≤ c.toNat ∧ c.toNat < 0xE000) := by omega
    have := scanString_u4 fuel '0' '0' (hexLower (c.toNat / 16)) (hexLower (c.toNat % 16)) tail
      c.toNat hg hs
    rw [hc] at this
    exact this
  split
  · rename_i h
    rcases h with h | h
    · subst h
      exact scanString_u4 fuel '2' '0' '2' _ tail 0x2028 (by decide) (by decide)
    · subst h
      exact scanString_u4 fuel '2' '0' '2' _ tail 0x2029 (by decide) (by decide)
  · rename_i h1 h2 h3 h4 h5 h6 h7 h8 h9
    have h20 : ¬ c.toNat < 0x20 := fun h => h8 (Or.inl h)
    exact scanString_plain fuel c tail h1 h2 h20

/-- Reading back one written rune: an invalid byte comes back as U+FFFD. -/
theorem scanString_encodeRune (fuel : Nat) (u : Option Char) (tail : List Char) :
    scanString (fuel + 1) (encodeRune u ++ tail)
      = (scanString fuel tail).map fun p => (runeChar u :: p.1, p.2) := by
  cases u with
  | some c => exact scanString_encodeChar fuel c tail
  | none => exact scanString_u4 fuel 'f' 'f' 'f' 'd' tail 0xFFFD (by decide) (by decide)

/-- Reading back the written runes of a string, up to the closing quote. -/
theorem scanString_encodeRunes (us : List (Option Char)) (tail : List Char) :
    ∀ fuel, us.length < fuel →
      scanString fuel (encodeRunes us ++ '"' :: tail) = some (us.map runeChar, tail) := by
  induction us with
  | nil =>
    intro fuel h
    obtain ⟨f, rfl⟩ : ∃ f, fuel = f + 1 := ⟨fuel - 1, by omega⟩
    rfl
  | cons u us ih =>
    intro fuel h
    obtain ⟨f, rfl⟩ : ∃ f, fuel = f + 1 := ⟨fuel - 1, by omega⟩
    rw [encodeRunes, List.append_assoc, scanString_encodeRune, ih f (by simpa using h)]
    rfl

theorem encodeChar_length (c : Char) : 1 ≤ (encodeChar c).length := by
  unfold encodeChar
  repeat' split
  all_goals simp

theorem encodeRunes_length (us : List (Option Char)) : us.length ≤ (encodeRunes us).length := by
  induction us with
  | nil => simp [encodeRunes]
  | cons u us ih =>
    have : 1 ≤ (encodeRune u).length := by
      cases u with
      | some c => exact encodeChar_length c
      | none => simp [encodeRune]
    simp only [encodeRunes, List.length_append, List.length_cons]
    omega

/-- Reading back a written string as a value. -/
theorem parseValue_encodeString (fuel depth : Nat) (s : GoString) (tail : List Char) :
    parseValue (fuel + 1) depth (encodeString s ++ tail) = some (Json.str (GoString.text s), tail) := by
  have hlen := encodeRunes_length (decodeRunes s)
  have h := scanString_encodeRunes (decodeRunes s) tail (encodeRunes (decodeRunes s) ++ '"' :: tail).length
    (by simp only [List.length_append, List.length_cons]; omega)
  simp only [encodeString, List.cons_append, List.append_assoc, List.singleton_append]
  rw [parseValue]
  simp only [skipSpace, isSpace]
  simp only [List.length_append, List.length_cons, String.toList] at h
  simp [h, GoString.text]

/-- Reading back the name of a member. -/
theorem scanString_encodeString_key (k : GoString) (tail : List Char) :
    scanString (encodeRunes (decodeRunes k) ++ '"' :: tail).length
        (encodeRunes (decodeRunes k) ++ '"' :: tail)
      = some ((decodeRunes k).map runeChar, tail) := by
  have hlen := encodeRunes_length (decodeRunes k)
  exact scanString_encodeRunes (decodeRunes k) tail _
    (by simp only [List.length_append, List.length_cons]; omega)

/-- Reading back a written member that is followed by a comma. -/
theorem parseMembers_member_comma (fuel depth : Nat) (k v : GoString) (more : List Char) :
    parseMembers (fuel + 2) depth (encodeString k ++ ':' :: (encodeString v ++ ',' :: more))
      = (parseMembers (fuel + 1) depth more).map fun p => ((GoString.text k, Json.str (GoString.text v)) :: p.1, p.2) := by
  have hk := scanString_encodeString_key k (':' :: (encodeString v ++ ',' :: more))
  have hv := parseValue_encodeString fuel depth v (',' :: more)
  rw [parseMembers]
  simp only [encodeString, List.cons_append, List.append_assoc, List.singleton_append] at hk hv ⊢
  simp only [List.nil_append, List.length_append, List.length_cons, String.toList] at hk hv
  simp [hk, hv, skipSpace, isSpace, GoString.text]

/-- Reading back the last written member, followed by the closing brace. -/
theorem parseMembers_member_end (fuel depth : Nat) (k v : GoString) (tail : List Char) :
    parseMembers (fuel + 2) depth (encodeString k ++ ':' :: (encodeString v ++ '}' :: tail))
      = some ([(GoString.text k, Json.str (GoString.text v))], tail) := by
  have hk := scanString_encodeString_key k (':' :: (encodeString v ++ '}' :: tail))
  have hv := parseValue_encodeString fuel depth v ('}' :: tail)
  rw [parseMembers]
  simp only [encodeString, List.cons_append, List.append_assoc, List.singleton_append] at hk hv ⊢
  simp only [List.nil_append, List.length_append, List.length_cons, String.toList] at hk hv
  simp [hk, hv, skipSpace, isSpace, GoString.text]

theorem typeFields_batchRequest (body method path : GoString) (vals : Values) :
    typeFields
      [ { name := utf8 "body", index := [0], tagged := true, value := FieldValue.str body },
        { name := utf8 "method", index := [1, 0], tagged := true, value := FieldValue.str method },
        { name := utf8 "relative_url", index := [1, 1], tagged := true
          value := FieldValue.str path },
        { name := utf8 "body", index := [1, 2], tagged := true, value := FieldValue.values vals } ]
    = [ { name := utf8 "body", index := [0], tagged := true, value := FieldValue.str body },
        { name := utf8 "method", index := [1, 0], tagged := true, value := FieldValue.str method },
        { name := utf8 "relative_url", index := [1, 1], tagged := true
          value := FieldValue.str path } ] := by
  rfl

/-- Reading back a written struct of three string fields. -/
theorem parseJSON_three_strings (k1 v1 k2 v2 k3 v3 : GoString) :
    parseJSON (String.mk ('{' :: ((encodeString k1 ++ ':' :: encodeString v1 ++ ',' ::
        (encodeString k2 ++ ':' :: encodeString v2 ++ ',' ::
          (encodeString k3 ++ ':' :: encodeString v3))) ++ ['}'])))
      = some (Json.obj [(GoString.text k1, Json.str (GoString.text v1)),
          (GoString.text k2, Json.str (GoString.text v2)),
          (GoString.text k3, Json.str (GoString.text v3))]) := by
  unfold parseJSON
  generalize hfuel : 2 * (String.mk _).length + 2 = fuel
  obtain ⟨f, rfl⟩ : ∃ f, fuel = f + 5 := by
    refine ⟨fuel - 5, ?_⟩
    simp only [String.length, encodeString, List.length_cons, List.length_append] at hfuel
    omega
  have m3 := parseMembers_member_end f 1 k3 v3 []
  have m2 := parseMembers_member_comma (f + 1) 1 k2 v2
    (encodeString k3 ++ ':' :: (encodeString v3 ++ '}' :: []))
  have m1 := parseMembers_member_comma (f + 2) 1 k1 v1
    (encodeString k2 ++ ':' :: (encodeString v2 ++ ',' ::
      (encodeString k3 ++ ':' :: (encodeString v3 ++ '}' :: []))))
  rw [m3] at m2
  rw [m2] at m1
  have hval : parseValue (f + 5) 0 (String.mk ('{' :: ((encodeString k1 ++ ':' :: encodeString v1 ++ ',' ::
        (encodeString k2 ++ ':' :: encodeString v2 ++ ',' ::
          (encodeString k3 ++ ':' :: encodeString v3))) ++ ['}']))).toList
      = some (Json.obj [(GoString.text k1, Json.str (GoString.text v1)),
          (GoString.text k2, Json.str (GoString.text v2)),
          (GoString.text k3, Json.str (GoString.text v3))], []) := by
    show parseValue (f + 5) 0 ('{' :: _) = _
    rw [parseValue]
    simp only [encodeString, List.cons_append, List.append_assoc, List.singleton_append,
      List.nil_append] at m1 ⊢
    simp only [String.toList, show f + 2 + 2 = f + 4 from rfl] at m1
    have hd : ¬ maxNestingDepth = 0 := by decide
    simp [skipSpace, isSpace, m1, hd]
  rw [hval]
  rfl

/-! ## Go strings and texts -/

theorem char_valid (c : Char) : c.toNat < 0xD800 ∨ (0xDFFF < c.toNat ∧ c.toNat < 0x110000) := by
  have h := c.valid
  simp only [UInt32.isValidChar, Nat.isValidChar] at h
  exact h

theorem decodeRune_one (b0 : Byte) (rest : GoString) (h : b0.val < 0x80) :
    decodeRune b0 rest = (some (Char.ofNat b0.val), 1) := by
  unfold decodeRune
  rw [if_pos h]

theorem decodeRune_two (b0 b1 : Byte) (rest : GoString) (n : Nat)
    (h0 : 0xC2 ≤ b0.val ∧ b0.val < 0xE0) (h1 : 0x80 ≤ b1.val ∧ b1.val ≤ 0xBF)
    (hn : b0.val % 0x20 * 0x40 + b1.val % 0x40 = n) :
    decodeRune b0 (b1 :: rest) = (some (Char.ofNat n), 2) := by
  unfold decodeRune
  simp only
  subst hn
  have hlo : ¬ (b1.val < (if b0.val = 0xE0 then 0xA0 else if b0.val = 0xF0 then 0x90 else 0x80)
      ∨ (if b0.val = 0xED then 0x9F else if b0.val = 0xF4 then 0x8F else 0xBF) < b1.val) := by
    split_ifs <;> omega
  rw [if_neg (by omega), if_neg (by omega), if_neg hlo, if_pos (by omega)]

theorem decodeRune_three (b0 b1 b2 : Byte) (rest : GoString) (n : Nat)
    (h0 : 0xE0 ≤ b0.val ∧ b0.val < 0xF0)
    (h1 : 0x80 ≤ b1.val ∧ b1.val ≤ 0xBF)
    (hE0 : b0.val = 0xE0 → 0xA0 ≤ b1.val) (hED : b0.val = 0xED → b1.val ≤ 0x9F)
    (h2 : 0x80 ≤ b2.val ∧ b2.val ≤ 0xBF)
    (hn : b0.val % 0x10 * 0x1000 + b1.val % 0x40 * 0x40 + b2.val % 0x40 = n) :
    decodeRune b0 (b1 :: b2 :: rest) = (some (Char.ofNat n), 3) := by
  unfold decodeRune
  simp only
  subst hn
  have hlo : ¬ (b1.val < (if b0.val = 0xE0 then 0xA0 else if b0.val = 0xF0 then 0x90 else 0x80)
      ∨ (if b0.val = 0xED then 0x9F else if b0.val = 0xF4 then 0x8F else 0xBF) < b1.val) := by
    split_ifs <;> omega
  rw [if_neg (by omega), if_neg (by omega), if_neg hlo, if_neg (by omega), if_neg (by omega),
    if_pos (by omega)]

theorem decodeRune_four (b0 b1 b2 b3 : Byte) (rest : GoString) (n : Nat)
    (h0 : 0xF0 ≤ b0.val ∧ b0.val ≤ 0xF4)
    (h1 : 0x80 ≤ b1.val ∧ b1.val ≤ 0xBF)
    (hF0 : b0.val = 0xF0 → 0x90 ≤ b1.val) (hF4 : b0.val = 0xF4 → b1.val ≤ 0x8F)
    (h2 : 0x80 ≤ b2.val ∧ b2.val ≤ 0xBF) (h3 : 0x80 ≤ b3.val ∧ b3.val ≤ 0xBF)
    (hn : b0.val % 8 * 0x40000 + b1.val % 0x40 * 0x1000 + b2.val % 0x40 * 0x40 + b3.val % 0x40
      = n) :
    decodeRune b0 (b1 :: b2 :: b3 :: rest) = (some (Char.ofNat n), 4) := by
  unfold decodeRune
  simp only
  subst hn
  have hlo : ¬ (b1.val < (if b0.val = 0xE0 then 0xA0 else if b0.val = 0xF0 then 0x90 else 0x80)
      ∨ (if b0.val = 0xED then 0x9F else if b0.val = 0xF4 then 0x8F else 0xBF) < b1.val) := by
    split_ifs <;> omega
  rw [if_neg (by omega), if_neg (by omega), if_neg hlo, if_neg (by omega), if_neg (by omega),
    if_neg (by omega), if_neg (by omega)]

theorem byteOf_val (k : Nat) (h : k < 256) : (byteOf k).val = k := Nat.mod_eq_of_lt h

/-- Decoding the UTF-8 encoding of a character gives the character back. -/
theorem decodeRunesFrom_utf8Bytes (c : Char) (rest : GoString) :
    decodeRunesFrom 0 (utf8Bytes c ++ rest) = some c :: decodeRunesFrom 0 rest := by
  have hv := char_valid c
  have hc : Char.ofNat c.toNat = c := Char.ofNat_toNat c
  unfold utf8Bytes
  simp only
  split
  · rename_i h
    have hb := byteOf_val c.toNat (by omega)
    simp only [List.append_eq, List.singleton_append, decodeRunesFrom]
    rw [decodeRune_one _ _ (by omega), hb, hc]
    rfl
  split
  · rename_i h1 h2
    have hb0 := byteOf_val (0xC0 + c.toNat / 0x40) (by omega)
    have hb1 := byteOf_val (0x80 + c.toNat % 0x40) (by omega)
    simp only [List.append_eq, List.cons_append, List.nil_append, decodeRunesFrom]
    rw [decodeRune_two (byteOf (0xC0 + c.toNat / 0x40)) (byteOf (0x80 + c.toNat % 0x40)) rest
      c.toNat (by omega) (by omega) (by omega), hc]
    rfl
  split
  · rename_i h1 h2 h3
    have hb0 := byteOf_val (0xE0 + c.toNat / 0x1000) (by omega)
    have hb1 := byteOf_val (0x80 + c.toNat / 0x40 % 0x40) (by omega)
    have hb2 := byteOf_val (0x80 + c.toNat % 0x40) (by omega)
    simp only [List.append_eq, List.cons_append, List.nil_append, decodeRunesFrom]
    rw [decodeRune_three (byteOf (0xE0 + c.toNat / 0x1000))
      (byteOf (0x80 + c.toNat / 0x40 % 0x40)) (byteOf (0x80 + c.toNat % 0x40)) rest
      c.toNat (by omega) (by omega) (by omega) (by omega) (by omega) (by omega), hc]
    rfl
  · rename_i h1 h2 h3
    have hb0 := byteOf_val (0xF0 + c.toNat / 0x40000) (by omega)
    have hb1 := byteOf_val (0x80 + c.toNat / 0x1000 % 0x40) (by omega)
    have hb2 := byteOf_val (0x80 + c.toNat / 0x40 % 0x40) (by omega)
    have hb3 := byteOf_val (0x80 + c.toNat % 0x40) (by omega)
    simp only [List.append_eq, List.cons_append, List.nil_append, decodeRunesFrom]
    rw [decodeRune_four (byteOf (0xF0 + c.toNat / 0x40000))
      (byteOf (0x80 + c.toNat / 0x1000 % 0x40)) (byteOf (0x80 + c.toNat / 0x40 % 0x40))
      (byteOf (0x80 + c.toNat % 0x40)) rest
      c.toNat (by omega) (by omega) (by omega) (by omega) (by omega) (by omega) (by omega), hc]
    rfl

set_option maxRecDepth 100000 in
theorem utf8Bytes_ascii : ∀ b : Byte, b.val < 0x80 → utf8Bytes (Char.ofNat b.val) = [b] := by
  decide

set_option maxRecDepth 100000 in
theorem shouldEscape_high : ∀ b : Byte, shouldEscape b = false → b.val < 0x80 := by
  decide

theorem upperhex_ascii : ∀ k : Fin 16, (ascii (upperhex k.val)).val < 0x80 := by
  decide

theorem escapeByte_ascii (b : Byte) : ∀ x ∈ escapeByte b, x.val < 0x80 := by
  intro x hx
  unfold escapeByte at hx
  split at hx
  · simp only [List.mem_singleton] at hx
    subst hx; decide
  split at hx
  · simp only [List.mem_cons, List.mem_singleton, List.not_mem_nil, or_false] at hx
    rcases hx with rfl | rfl | rfl
    · decide
    · exact upperhex_ascii ⟨b.val / 16, by omega⟩
    · exact upperhex_ascii ⟨b.val % 16, by omega⟩
  · rename_i h1 h2
    simp only [List.mem_singleton] at hx
    subst hx
    exact shouldEscape_high x (by simpa using h2)

/-- Decoding the UTF-8 encoding of a text gives its characters back. -/
theorem decodeRunes_utf8 (cs : List Char) :
    decodeRunes (cs.flatMap utf8Bytes) = cs.map some := by
  unfold decodeRunes
  induction cs with
  | nil => rfl
  | cons c cs ih =>
    rw [List.flatMap_cons, decodeRunesFrom_utf8Bytes, ih]
    rfl

/-- A Go string that holds a text reads back as that text. -/
theorem text_utf8 (s : String) : GoString.text (utf8 s) = s := by
  unfold GoString.text utf8
  rw [decodeRunes_utf8, List.map_map]
  have : (runeChar ∘ some) = id := rfl
  rw [this, List.map_id]
  rfl

/-- The runes of a string of bytes below 128 are its bytes. -/
theorem decodeRunes_ascii (bs : GoString) (h : ∀ b ∈ bs, b.val < 0x80) :
    decodeRunes bs = bs.map fun b => some (Char.ofNat b.val) := by
  unfold decodeRunes
  induction bs with
  | nil => rfl
  | cons b bs ih =>
    have hb := h b (List.mem_cons_self _ _)
    simp only [decodeRunesFrom, decodeRune_one b bs hb, List.map_cons]
    rw [ih fun x hx => h x (List.mem_cons_of_mem _ hx)]

/-- The text of a string of bytes below 128 is written with the same bytes. -/
theorem utf8_text_ascii (bs : GoString) (h : ∀ b ∈ bs, b.val < 0x80) :
    utf8 (GoString.text bs) = bs := by
  unfold GoString.text utf8
  rw [decodeRunes_ascii bs h]
  simp only [List.map_map, String.toList]
  induction bs with
  | nil => rfl
  | cons b bs ih =>
    simp only [List.map_cons, List.flatMap_cons, Function.comp, runeChar]
    rw [utf8Bytes_ascii b (h b (List.mem_cons_self _ _))]
    simp only [List.singleton_append, List.cons.injEq, true_and]
    exact ih fun x hx => h x (List.mem_cons_of_mem _ hx)

theorem QueryEscape_ascii (s : GoString) : ∀ x ∈ QueryEscape s, x.val < 0x80 := by
  intro x hx
  unfold QueryEscape at hx
  rw [List.mem_flatMap] at hx
  obtain ⟨b, _, hb⟩ := hx
  exact escapeByte_ascii b x hb

theorem mem_intersperse {α : Type} (sep : α) :
    ∀ (l : List α) (x : α), x ∈ l.intersperse sep → x ∈ l ∨ x = sep
  | [], _, h => by simp at h
  | [a], x, h => by
    simp only [List.intersperse_single, List.mem_singleton] at h
    exact Or.inl (by simp [h])
  | a :: b :: rest, x, h => by
    rw [List.intersperse_cons₂, List.mem_cons, List.mem_cons] at h
    rcases h with h | h | h
    · exact Or.inl (by simp [h])
    · exact Or.inr h
    · rcases mem_intersperse sep (b :: rest) x h with h1 | h1
      · exact Or.inl (List.mem_cons_of_mem _ h1)
      · exact Or.inr h1

theorem intercalate_ascii (sep : GoString) (hsep : ∀ x ∈ sep, x.val < 0x80) :
    ∀ parts : List GoString, (∀ p ∈ parts, ∀ x ∈ p, x.val < 0x80) →
      ∀ x ∈ sep.intercalate parts, x.val < 0x80 := by
  intro parts hparts x hx
  unfold List.intercalate at hx
  rw [List.mem_flatten] at hx
  obtain ⟨l, hl, hxl⟩ := hx
  rcases mem_intersperse sep parts l hl with h | h
  · exact hparts l h x hxl
  · subst h; exact hsep x hxl

/-- The form encoding is written with bytes below 128. -/
theorem formEncode_ascii (keys : List GoString) (v : Values) :
    ∀ x ∈ formEncode keys v, x.val < 0x80 := by
  unfold formEncode
  apply intercalate_ascii
  · intro x hx
    simp only [List.mem_singleton] at hx
    subst hx; decide
  · intro p hp x hx
    rw [List.mem_flatMap] at hp
    obtain ⟨k, _, hk⟩ := hp
    unfold encodePairs at hk
    rw [List.mem_map] at hk
    obtain ⟨val, _, rfl⟩ := hk
    rw [List.mem_append, List.mem_cons] at hx
    rcases hx with h | h | h
    · exact QueryEscape_ascii k x h
    · subst h; decide
    · exact QueryEscape_ascii val x h

/-- A byte that starts no encoding, whatever follows it. -/
theorem decodeRune_invalid (b : Byte) (rest : GoString)
    (h : (0x80 ≤ b.val ∧ b.val < 0xC2) ∨ 0xF4 < b.val) : decodeRune b rest = (none, 1) := by
  unfold decodeRune
  rw [if_neg (by omega), if_pos (by omega)]

/-- Decoding goes through the UTF-8 encoding of a text character by character. -/
theorem decodeRunesFrom_utf8_append (cs : List Char) (rest : GoString) :
    decodeRunesFrom 0 (cs.flatMap utf8Bytes ++ rest) = cs.map some ++ decodeRunesFrom 0 rest := by
  induction cs with
  | nil => rfl
  | cons c cs ih =>
    rw [List.flatMap_cons, List.append_assoc, decodeRunesFrom_utf8Bytes, ih]
    rfl

/-- The text of a string in which one byte that starts no encoding stands between two
texts: the two texts with U+FFFD between them. -/
theorem text_invalid_byte (pre post : String) (b : Byte)
    (h : (0x80 ≤ b.val ∧ b.val < 0xC2) ∨ 0xF4 < b.val) :
    GoString.text (utf8 pre ++ b :: utf8 post)
      = String.mk (pre.toList ++ Char.ofNat 0xFFFD :: post.toList) := by
  unfold GoString.text decodeRunes utf8
  rw [decodeRunesFrom_utf8_append]
  simp only [decodeRunesFrom, decodeRune_invalid b _ h]
  have hpost := decodeRunes_utf8 post.toList
  unfold decodeRunes at hpost
  rw [show (1 : Nat) - 1 = 0 from rfl, hpost]
  have hid : (runeChar ∘ some) = id := rfl
  simp [runeChar, hid]

/-! ## The bytes `MarshalJSON` returns -/

/-- The bytes `MarshalJSON` returns, written out: the three members `body`, `method`
and `relative_url`, each a string as `json.Marshal` writes it. -/
theorem MarshalJSON_bytes (br : BatchRequest) :
    br.MarshalJSON.1.1
      = String.mk ('{' :: ((encodeString (utf8 "body") ++ ':' :: encodeString br.Body.Encode.1
          ++ ',' :: (encodeString (utf8 "method") ++ ':' :: encodeString br.Method
            ++ ',' :: (encodeString (utf8 "relative_url") ++ ':' :: encodeString br.Path)))
          ++ ['}'])) := by
  unfold BatchRequest.MarshalJSON marshalStruct
  simp only [typeFields_batchRequest, encodeFields, encodeFieldValue]

/-- Reading back the bytes `MarshalJSON` returns: an object with the three members
`body`, `method` and `relative_url`, in this order, whose values are the texts of
the form encoding, of `Method` and of `Path`. -/
theorem parseJSON_MarshalJSON (br : BatchRequest) :
    parseJSON br.MarshalJSON.1.1
      = some (Json.obj
          [ ("body", Json.str (GoString.text br.Body.Encode.1)),
            ("method", Json.str (GoString.text br.Method)),
            ("relative_url", Json.str (GoString.text br.Path)) ]) := by
  unfold BatchRequest.MarshalJSON marshalStruct
  simp only [typeFields_batchRequest, encodeFields, encodeFieldValue]
  have h := parseJSON_three_strings (utf8 "body") br.Body.Encode.1 (utf8 "method") br.Method
    (utf8 "relative_url") br.Path
  rw [text_utf8, text_utf8, text_utf8] at h
  exact h

/-- C7 (amended): `MarshalJSON` succeeds (nil error) and the bytes it returns are a
JSON text of an object with exactly the three members `body`, `method` and
`relative_url`, in this order. The member `body` is a string, the text of
`v.Encode()`, the form encoding of the parameter set (the field `Body url.Values`
of the embedded alias is hidden by the outer `Body string`), and its bytes are
those of `v.Encode()`. The members `method` and `relative_url` are the texts of
`Method` and `Path`, in which U+FFFD stands in the place of every byte that
starts no valid UTF-8 encoding: they are `Method` and `Path` themselves when
these are valid UTF-8, that is when they hold texts `m` and `p`; and a method
made of a text, a byte that starts no encoding and another text comes out as
the two texts with U+FFFD between them. -/
theorem MarshalJSON_body_is_form_encoding (br : BatchRequest) :
    br.MarshalJSON.1.2 = none
    ∧ parseJSON br.MarshalJSON.1.1
        = some (Json.obj
            [ ("body", Json.str (GoString.text br.Body.Encode.1)),
              ("method", Json.str (GoString.text br.Method)),
              ("relative_url", Json.str (GoString.text br.Path)) ])
    ∧ utf8 (GoString.text br.Body.Encode.1) = br.Body.Encode.1
    ∧ (∀ m p : String,
        parseJSON
            (BatchRequest.MarshalJSON { Method := utf8 m, Path := utf8 p, Body := br.Body }).1.1
          = some (Json.obj
              [ ("body", Json.str (GoString.text br.Body.Encode.1)),
                ("method", Json.str m),
                ("relative_url", Json.str p) ]))
    ∧ (∀ (pre post : String) (b : Byte), (0x80 ≤ b.val ∧ b.val < 0xC2) ∨ 0xF4 < b.val →
        parseJSON
            (BatchRequest.MarshalJSON
              { Method := utf8 pre ++ b :: utf8 post, Path := br.Path, Body := br.Body }).1.1
          = some (Json.obj
              [ ("body", Json.str (GoString.text br.Body.Encode.1)),
                ("method", Json.str (String.mk (pre.toList ++ Char.ofNat 0xFFFD :: post.toList))),
                ("relative_url", Json.str (GoString.text br.Path)) ])) := by
  refine ⟨rfl, parseJSON_MarshalJSON br, utf8_text_ascii _ (formEncode_ascii _ _), ?_, ?_⟩
  · intro m p
    have h := parseJSON_MarshalJSON { Method := utf8 m, Path := utf8 p, Body := br.Body }
    simp only [text_utf8] at h
    exact h
  · intro pre post b hb
    have h := parseJSON_MarshalJSON
      { Method := utf8 pre ++ b :: utf8 post, Path := br.Path, Body := br.Body }
    simp only [text_invalid_byte pre post b hb] at h
    exact h

/-- Witness for C6: a malformed envelope, a body that is not a string, and a
body string that is not JSON; the receiver keeps `Code = 7` and its old body. -/
theorem UnmarshalJSON_all_or_nothing_witness :
    usedResponse.UnmarshalJSON "\x7b\"code\":200,\"body\":" = (usedResponse, some GoError.jsonSyntax)
    ∧ usedResponse.UnmarshalJSON "\x7b\"code\":200,\"body\":\x7b\"id\":1\x7d\x7d"
        = (usedResponse, some (GoError.jsonType "object"))
    ∧ usedResponse.UnmarshalJSON "\x7b\"code\":200,\"body\":\"\x7b\\\"id\\\":\"\x7d"
        = (usedResponse, some GoError.jsonSyntax) :=
  ⟨UnmarshalJSON_all_or_nothing usedResponse _ _ (Or.inl rfl),
    UnmarshalJSON_all_or_nothing usedResponse _ _ (Or.inl rfl),
    UnmarshalJSON_all_or_nothing usedResponse _ _ (Or.inr ⟨rfl, rfl⟩)⟩

/-! ## What every run leaves behind: events, errors, results -/

/-- One run of the closure, whatever the delegate returns. -/
theorem operation_spec (t : retryTransport) (w : World) (r : Request) (st : State) :
    (operation t w r st).1.calls = st.calls + 1
    ∧ (operation t w r st).1.attempt = st.attempt + 1
    ∧ (operation t w r st).1.events = st.events ++ callEvents t r (st.calls + 1)
    ∧ (operation t w r st).1.resp = (t.next.RoundTrip r (st.calls + 1)).1
    ∧ (operation t w r st).2 = opResultOf (t.next.RoundTrip r (st.calls + 1)) (st.attempt + 1) := by
  rcases hres : t.next.RoundTrip r (st.calls + 1) with ⟨resp, e⟩
  cases e with
  | some e =>
    have hs : serverError t r (st.calls + 1) = false := by
      cases resp <;> simp [serverError, hres]
    cases resp <;>
      simp [operation, hres, callEvents, hs, opResultOf, attemptError]
  | none =>
    cases resp with
    | none =>
      have hs : serverError t r (st.calls + 1) = false := by simp [serverError, hres]
      simp [operation, hres, callEvents, hs, opResultOf, attemptError]
    | some rs =>
      by_cases h5 : 500 ≤ rs.StatusCode
      · have hs : serverError t r (st.calls + 1) = true := by simp [serverError, hres, h5]
        cases hb : rs.Body.readErr <;>
          simp [operation, hres, callEvents, hs, opResultOf, attemptError, h5, ReadAll, hb]
      · have hs : serverError t r (st.calls + 1) = false := by simp [serverError, hres, h5]
        simp [operation, hres, callEvents, hs, opResultOf, attemptError, h5]

theorem consistent_start (t : retryTransport) (r : Request) : Consistent t r startState :=
  ⟨rfl, rfl⟩

/-- The state after one run of the closure is consistent again. -/
theorem consistent_operation (t : retryTransport) (w : World) (r : Request) (st : State)
    (h : Consistent t r st) : Consistent t r (operation t w r st).1 := by
  obtain ⟨h1, h2, h3, _, _⟩ := operation_spec t w r st
  exact ⟨by rw [h1, h2, h.hattempt], by rw [h3, h1, h.hevents]; rfl⟩

theorem opResultOf_ok (res : Option Response × Option GoError) (n : Nat)
    (h : opResultOf res n = OpResult.ok) :
    ∃ rs, res = (some rs, none) ∧ rs.StatusCode < 500 := by
  obtain ⟨resp, e⟩ := res
  cases e with
  | some e => cases resp <;> simp [opResultOf, attemptError] at h
  | none =>
    cases resp with
    | none => simp [opResultOf, attemptError] at h
    | some rs =>
      by_cases h5 : 500 ≤ rs.StatusCode
      · cases hb : rs.Body.readErr <;> simp [opResultOf, attemptError, h5, ReadAll, hb] at h
      · exact ⟨rs, rfl, not_le.mp h5⟩

theorem opResultOf_panic (res : Option Response × Option GoError) (n : Nat)
    (h : opResultOf res n = OpResult.panic) : res = (none, none) := by
  obtain ⟨resp, e⟩ := res
  cases e with
  | some e => cases resp <;> simp [opResultOf, attemptError] at h
  | none =>
    cases resp with
    | none => rfl
    | some rs =>
      by_cases h5 : 500 ≤ rs.StatusCode
      · cases hb : rs.Body.readErr <;> simp [opResultOf, attemptError, h5, ReadAll, hb] at h
      · simp [opResultOf, attemptError, h5] at h

theorem opResultOf_fail (res : Option Response × Option GoError) (n : Nat) (e : GoError)
    (h : opResultOf res n = OpResult.fail e) : attemptError res n = some e := by
  unfold opResultOf at h
  cases ha : attemptError res n with
  | some e1 =>
    rw [ha] at h
    simp only [OpResult.fail.injEq] at h
    rw [h]
  | none =>
    rw [ha] at h
    cases hr : res.1 <;> rw [hr] at h <;> simp at h

/-- An attempt whose error is a `*backoff.PermanentError` got it from the delegate:
the error that the closure composes after a status of 500 or more is not one. -/
theorem attemptError_permanent (res : Option Response × Option GoError) (n : Nat)
    (err : GoError) (inner : Option GoError) (h : attemptError res n = some err)
    (hp : err.asPermanent = some inner) : res.2 = some (GoError.permanent inner) := by
  obtain ⟨resp, e⟩ := res
  cases e with
  | some e =>
    have he : e = err := by cases resp <;> simpa [attemptError] using h
    subst he
    cases e <;> simp [GoError.asPermanent] at hp
    subst hp
    rfl
  | none =>
    cases resp with
    | none => simp [attemptError] at h
    | some rs =>
      unfold attemptError at h
      simp only at h
      split at h
      · split at h <;>
        · simp only [Option.some.injEq] at h
          subst h
          simp [GoError.asPermanent] at hp
      · cases h

/-- Every way in which the retry loop ends is one of the ways of `EndsWell`. -/
theorem RetryLoop_ends (t : retryTransport) (w : World) (r : Request) (fuel : Nat) :
    ∀ (i : Nat) (b : backOffContext) (st st1 : State) (res : RetryResult),
      Consistent t r st →
      RetryLoop (operation t w r) w fuel i b st = some (st1, res) →
      EndsWell t r st1 res := by
  induction fuel with
  | zero => intro i b st st1 res _ h; simp [RetryLoop] at h
  | succ fuel ih =>
    intro i b st st1 res hc h
    obtain ⟨h1, h2, h3, h4, h5⟩ := operation_spec t w r st
    have hc1 := consistent_operation t w r st hc
    rcases hop : operation t w r st with ⟨s1, out⟩
    rw [hop] at h1 h2 h3 h4 h5 hc1
    simp only at h1 h2 h3 h4 h5 hc1
    have hatt : st.attempt + 1 = s1.calls := by rw [h1, hc.hattempt]
    rw [hatt, ← h1] at h5
    rw [← h1] at h4
    rw [RetryLoop, hop] at h
    cases out with
    | ok =>
      simp only [Option.some.injEq, Prod.mk.injEq] at h
      obtain ⟨rfl, rfl⟩ := h
      obtain ⟨rs, hrs, hlt⟩ := opResultOf_ok _ _ h5.symm
      exact ⟨hc1, by omega, h4, Or.inl ⟨rs, hrs, hlt, rfl⟩⟩
    | panic =>
      simp only [Option.some.injEq, Prod.mk.injEq] at h
      obtain ⟨rfl, rfl⟩ := h
      exact ⟨hc1, by omega, h4, opResultOf_panic _ _ h5.symm⟩
    | fail err =>
      have herr := opResultOf_fail _ _ _ h5.symm
      simp only at h
      cases hperm : err.asPermanent with
      | some inner =>
        rw [hperm] at h
        simp only [Option.some.injEq, Prod.mk.injEq] at h
        obtain ⟨rfl, rfl⟩ := h
        exact ⟨hc1, by omega, h4, Or.inr (Or.inr ⟨inner,
          attemptError_permanent _ _ _ _ herr hperm, rfl⟩)⟩
      | none =>
        rw [hperm] at h
        simp only at h
        rcases hnb : b.NextBackOff s1.now (w.random i) with ⟨nx, b1⟩
        rw [hnb] at h
        cases nx with
        | none =>
          simp only [Option.some.injEq, Prod.mk.injEq] at h
          obtain ⟨rfl, rfl⟩ := h
          exact ⟨hc1, by omega, h4, Or.inr (Or.inl ⟨err, herr, hperm, rfl⟩)⟩
        | some next =>
          simp only at h
          by_cases hd : b.ctx.Done (s1.now + next) = true
          · rw [if_pos hd] at h
            simp only [Option.some.injEq, Prod.mk.injEq] at h
            obtain ⟨rfl, rfl⟩ := h
            exact ⟨hc1, by omega, h4, Or.inr (Or.inl ⟨err, herr, hperm, rfl⟩)⟩
          · rw [if_neg hd] at h
            exact ih (i + 1) b1 { s1 with now := s1.now + next } st1 res
              ⟨hc1.hattempt, hc1.hevents⟩ h

/-- A finished run of `RoundTrip` comes from a finished retry loop. -/
theorem RoundTrip_run (t : retryTransport) (w : World) (fuel : Nat) (r : Request) (run : Run)
    (h : t.RoundTrip w fuel r = some run) :
    ∃ st res, RetryLoop (operation t w r) w fuel 0 (startBackOff r) startState = some (st, res)
      ∧ EndsWell t r st res
      ∧ run.calls = st.calls ∧ run.events = st.events
      ∧ run.outcome =
          (match res with
           | RetryResult.panicked => Outcome.panic
           | RetryResult.returned (some err) => Outcome.ret none (some err)
           | RetryResult.returned none => Outcome.ret st.resp none) := by
  rw [RoundTrip_eq] at h
  rcases hl : RetryLoop (operation t w r) w fuel 0 (startBackOff r) startState with _ | ⟨st, res⟩
  · rw [hl] at h; simp at h
  · rw [hl] at h
    have he := RetryLoop_ends t w r fuel 0 _ _ st res (consistent_start t r) hl
    refine ⟨st, res, rfl, he, ?_⟩
    cases res with
    | panicked =>
      simp only [Option.some.injEq] at h
      subst h
      exact ⟨rfl, rfl, rfl⟩
    | returned e =>
      cases e with
      | none =>
        simp only [Option.some.injEq] at h
        subst h
        exact ⟨rfl, rfl, rfl⟩
      | some e =>
        simp only [Option.some.injEq] at h
        subst h
        exact ⟨rfl, rfl, rfl⟩

theorem attemptError_status (rs : Response) (k : Nat) (h : 500 ≤ rs.StatusCode) :
    attemptError (some rs, none) k = some (GoError.errorString (statusMessage rs k)) := by
  cases hb : rs.Body.readErr <;> simp [attemptError, h, ReadAll, hb, statusMessage]

/-- C13: when the `k`-th delegate call returns a response with status 500 or
more and status text `S`, the closure (in the state of its `k`-th run, both
counters at `k - 1`) ends with the error whose text is
`unexpected status S from facebook, body: B, attempt k` when the body was
read without error with text `B`, and `unexpected status S from facebook,
attempt k` when reading failed. When `RoundTrip` gives up after that call
(`k` calls in all), this is the error it returns: the attempt number of the
message is the number of delegate calls made. -/
theorem RoundTrip_status_error_message (t : retryTransport) (w : World) (r : Request)
    (k : Nat) (rs : Response)
    (hcall : t.next.RoundTrip r k = (some rs, none)) (hstatus : 500 ≤ rs.StatusCode) :
    (rs.Body.readErr = none →
        statusMessage rs k = "unexpected status " ++ rs.Status ++ " from facebook, body: "
          ++ rs.Body.data ++ ", attempt " ++ toString k)
    ∧ (rs.Body.readErr ≠ none →
        statusMessage rs k = "unexpected status " ++ rs.Status ++ " from facebook, attempt "
          ++ toString k)
    ∧ (∀ st : State, st.calls + 1 = k → st.attempt + 1 = k →
        (operation t w r st).2 = OpResult.fail (GoError.errorString (statusMessage rs k)))
    ∧ (∀ (fuel : Nat) (run : Run) (err : GoError), t.RoundTrip w fuel r = some run →
        run.calls = k → run.outcome = Outcome.ret none (some err) →
        err = GoError.errorString (statusMessage rs run.calls)) := by
  refine ⟨?_, ?_, ?_, ?_⟩
  · intro hb; simp [statusMessage, hb]
  · intro hb
    cases hc : rs.Body.readErr with
    | none => exact absurd hc hb
    | some e => simp [statusMessage, hc]
  · intro st h1 h2
    obtain ⟨_, _, _, _, h5⟩ := operation_spec t w r st
    rw [h5, h1, h2, hcall, opResultOf, attemptError_status rs k hstatus]
  · intro fuel run err hrun hcalls hout
    obtain ⟨st, res, _, ⟨_, _, _, hres⟩, hc, _, ho⟩ := RoundTrip_run t w fuel r run hrun
    cases res with
    | panicked => rw [hout] at ho; simp at ho
    | returned e =>
      cases e with
      | none => rw [hout] at ho; simp at ho
      | some e =>
        simp only at hres ho
        rw [hout] at ho
        simp only [Outcome.ret.injEq, Option.some.injEq, true_and] at ho
        subst ho
        rw [← hc, hcalls, hcall, attemptError_status rs k hstatus] at hres
        rcases hres with ⟨_, _, _, he⟩ | ⟨e1, h1, _, he⟩ | ⟨_, hin, _⟩
        · cases he
        · simp only [Option.some.injEq] at h1 he
          rw [hcalls, he, ← h1]
        · cases hin

/-- Witness for C13: a 503 answer whose body reads as `oops`, and a 502 answer whose
body cannot be read, each at the first attempt of a run that is then cancelled. -/
theorem RoundTrip_status_error_message_witness :
    statusMessage unavailableResponse 1
        = "unexpected status 503 Service Unavailable from facebook, body: oops, attempt 1"
    ∧ statusMessage unreadableResponse 1
        = "unexpected status 502 Bad Gateway from facebook, attempt 1"
    ∧ (operation flakyTransport steadyWorld cancelledRequest startState).2
        = OpResult.fail (GoError.errorString
            "unexpected status 503 Service Unavailable from facebook, body: oops, attempt 1")
    ∧ flakyTransport.RoundTrip steadyWorld 5 cancelledRequest
        = some
            { outcome := Outcome.ret none (some (GoError.errorString
                "unexpected status 503 Service Unavailable from facebook, body: oops, attempt 1"))
              calls := 1
              events := [Event.call 1, Event.readAll 1, Event.close 1] } :=
  ⟨(RoundTrip_status_error_message flakyTransport steadyWorld cancelledRequest 1
      unavailableResponse rfl (by decide)).1 rfl,
    (RoundTrip_status_error_message unreadableTransport steadyWorld cancelledRequest 1
      unreadableResponse rfl (by decide)).2.1 (by simp [unreadableResponse]),
    (RoundTrip_status_error_message flakyTransport steadyWorld cancelledRequest 1
      unavailableResponse rfl (by decide)).2.2.1 startState rfl rfl,
    rfl⟩

/-- The text `Error.Error` composes when there is no user message. -/
theorem composed_ne_empty (t m u : String) :
    "facebook: type='" ++ t ++ "' message='" ++ m ++ "' error_user_title='" ++ u ++ "'" ≠ "" := by
  intro h
  have := congrArg String.length h
  simp only [String.length_append] at this
  have h1 : "'".length = 1 := rfl
  have h0 : "".length = 0 := rfl
  omega

/-- C11: `e.Error()` is `ErrorUserMsg` when that field is not empty, and
otherwise the text `facebook: type='T' message='M' error_user_title='U'`
built from `Type`, `Message` and `ErrorUserTitle`; it equals `ErrorUserMsg`
exactly when `ErrorUserMsg` is not empty; and changing the code, the
subcode, the trace id, the transient flag or the error data never changes
the text. -/
theorem Error_rendering (e : Error) :
    e.Error
        = (if e.ErrorUserMsg ≠ "" then e.ErrorUserMsg
           else "facebook: type='" ++ e.Type_ ++ "' message='" ++ e.Message
             ++ "' error_user_title='" ++ e.ErrorUserTitle ++ "'")
    ∧ (e.Error = e.ErrorUserMsg ↔ e.ErrorUserMsg ≠ "")
    ∧ (∀ (code subcode : Nat) (trace : String) (transient : Bool) (data : Option Json),
        Error.Error
            { e with Code := code, ErrorSubcode := subcode, FbtraceID := trace
                     IsTransient := transient, ErrorData := data }
          = e.Error) := by
  refine ⟨rfl, ?_, fun _ _ _ _ _ => rfl⟩
  unfold Error.Error
  by_cases h : e.ErrorUserMsg = ""
  · simp only [h, ne_eq, not_true_eq_false, if_false, iff_false]
    exact composed_ne_empty _ _ _
  · simp [h]

/-! ## Bodies that are not a JSON document in a string -/

/-- Storing a member leaves the body of `temp` empty when the member is not a body, or
is a body that is `null` or the empty string. -/
theorem store_body_empty (name : String) (v : Json) (t : BatchResponseTemp)
    (ht : t.Body = "") (hv : name = "body" → v = Json.null ∨ v = Json.str "") :
    (BatchResponseTemp.store name v t).1.Body = "" := by
  unfold BatchResponseTemp.store
  by_cases h1 : name = "code"
  · simp [h1, ht]
  · by_cases h2 : name = "body"
    · rcases hv h2 with h | h <;> simp [h2, h, storeString, ht]
    · simp [h1, h2, ht]

/-- Decoding members none of which gives a body other than `null` or the empty string
leaves the body of `temp` empty. -/
theorem decodeMembers_body_empty (members : List (String × Json)) :
    ∀ t : BatchResponseTemp, t.Body = "" →
      (∀ m ∈ members, findField ["code", "body"] m.1 = some "body" →
        m.2 = Json.null ∨ m.2 = Json.str "") →
      (decodeMembers ["code", "body"] BatchResponseTemp.store members t).1.Body = "" := by
  induction members with
  | nil => intro t ht _; exact ht
  | cons m rest ih =>
    intro t ht h
    obtain ⟨k, v⟩ := m
    have hrest : ∀ m ∈ rest, findField ["code", "body"] m.1 = some "body" →
        m.2 = Json.null ∨ m.2 = Json.str "" := fun m hm => h m (List.mem_cons_of_mem _ hm)
    rw [decodeMembers]
    cases hf : findField ["code", "body"] k with
    | none => exact ih t ht hrest
    | some name =>
      simp only
      apply ih _ _ hrest
      apply store_body_empty name v t ht
      intro hn
      exact h (k, v) (List.mem_cons_self _ _) (by rw [hf, hn])

theorem saveError_ne_none (a b : Option GoError) (h : a ≠ none ∨ b ≠ none) :
    saveError a b ≠ none := by
  cases a with
  | some e => simp [saveError]
  | none =>
    rcases h with h | h
    · exact absurd rfl h
    · simpa [saveError] using h

/-- Storing a body that is neither `null` nor a string is a type error. -/
theorem store_body_error (v : Json) (t : BatchResponseTemp) (h0 : v ≠ Json.null)
    (hs : ∀ s, v ≠ Json.str s) : (BatchResponseTemp.store "body" v t).2 ≠ none := by
  cases v with
  | null => exact absurd rfl h0
  | str s => exact absurd rfl (hs s)
  | _ => simp [BatchResponseTemp.store, storeString]

/-- Decoding members one of which gives a body that is neither `null` nor a string
ends with an error. -/
theorem decodeMembers_body_error (members : List (String × Json)) :
    ∀ t : BatchResponseTemp,
      (∃ m ∈ members, findField ["code", "body"] m.1 = some "body" ∧ m.2 ≠ Json.null
        ∧ ∀ s, m.2 ≠ Json.str s) →
      (decodeMembers ["code", "body"] BatchResponseTemp.store members t).2 ≠ none := by
  induction members with
  | nil => intro t ⟨m, hm, _⟩; simp at hm
  | cons m rest ih =>
    intro t ⟨m1, hm1, hf1, h0, hs⟩
    obtain ⟨k, v⟩ := m
    rw [decodeMembers]
    rcases List.mem_cons.mp hm1 with rfl | hin
    · simp only at hf1 h0 hs
      rw [hf1]
      simp only
      exact saveError_ne_none _ _ (Or.inl (store_body_error v t h0 hs))
    · cases hf : findField ["code", "body"] k with
      | none => exact ih t ⟨m1, hin, hf1, h0, hs⟩
      | some name =>
        simp only
        exact saveError_ne_none _ _ (Or.inr (ih _ ⟨m1, hin, hf1, h0, hs⟩))

/-- C15: let `data` be a JSON text of an object. When no member gives the
body anything but `null` or the empty string (the member is absent, `null`
or `""`), the outer decode leaves the body of `temp` empty, the inner parse
of the empty string fails, and `UnmarshalJSON` returns an error (the syntax
error of the inner parse when the outer decode succeeded) with the receiver
unchanged. When a member gives the body a value that is neither `null` nor
a string (an object, an array, a number, a boolean), the outer decode fails
and `UnmarshalJSON` returns its error with the receiver unchanged. -/
theorem UnmarshalJSON_rejects_missing_body (br : BatchResponse) (data : String)
    (members : List (String × Json))
    (houter : parseJSON data = some (Json.obj members)) :
    ((∀ m ∈ members, findField ["code", "body"] m.1 = some "body" →
          m.2 = Json.null ∨ m.2 = Json.str "") →
        (BatchResponseTemp.unmarshal data { Code := 0, Body := "" }).1.Body = ""
        ∧ unmarshalAny "" Any.nil = (Any.nil, some GoError.jsonSyntax)
        ∧ ∃ err, br.UnmarshalJSON data = (br, some err)
            ∧ ((BatchResponseTemp.unmarshal data { Code := 0, Body := "" }).2 = none →
                err = GoError.jsonSyntax))
    ∧ ((∃ m ∈ members, findField ["code", "body"] m.1 = some "body" ∧ m.2 ≠ Json.null
          ∧ ∀ s, m.2 ≠ Json.str s) →
        ∃ err, (BatchResponseTemp.unmarshal data { Code := 0, Body := "" }).2 = some err
          ∧ br.UnmarshalJSON data = (br, some err)) := by
  have hun : BatchResponseTemp.unmarshal data { Code := 0, Body := "" }
      = decodeMembers ["code", "body"] BatchResponseTemp.store members { Code := 0, Body := "" } := by
    simp only [BatchResponseTemp.unmarshal, houter, decodeStruct]
  have hempty : unmarshalAny "" Any.nil = (Any.nil, some GoError.jsonSyntax) := rfl
  constructor
  · intro h
    have hb := decodeMembers_body_empty members { Code := 0, Body := "" } rfl h
    rw [← hun] at hb
    refine ⟨hb, hempty, ?_⟩
    rcases hd : BatchResponseTemp.unmarshal data { Code := 0, Body := "" } with ⟨temp, e⟩
    rw [hd] at hb
    simp only at hb
    cases e with
    | some e =>
      exact ⟨e, by simp only [BatchResponse.UnmarshalJSON, hd], fun h => by simp at h⟩
    | none =>
      refine ⟨GoError.jsonSyntax, ?_, fun _ => rfl⟩
      simp only [BatchResponse.UnmarshalJSON, hd, hb, hempty]
  · intro h
    have he := decodeMembers_body_error members { Code := 0, Body := "" } h
    rw [← hun] at he
    rcases hd : BatchResponseTemp.unmarshal data { Code := 0, Body := "" } with ⟨temp, e⟩
    rw [hd] at he
    cases e with
    | none => exact absurd rfl he
    | some e => exact ⟨e, rfl, by simp only [BatchResponse.UnmarshalJSON, hd]⟩

/-! ## The order of the parameters -/

theorem bytesLe_total : ∀ a b : GoString, bytesLe a b = true ∨ bytesLe b a = true
  | [], _ => Or.inl rfl
  | _ :: _, [] => Or.inr rfl
  | a :: as, b :: bs => by
    simp only [bytesLe, Bool.or_eq_true, Bool.and_eq_true, decide_eq_true_eq]
    rcases Nat.lt_trichotomy a.val b.val with h | h | h
    · exact Or.inl (Or.inl h)
    · rcases bytesLe_total as bs with h1 | h1
      · exact Or.inl (Or.inr ⟨h, h1⟩)
      · exact Or.inr (Or.inr ⟨h.symm, h1⟩)
    · exact Or.inr (Or.inl h)

theorem bytesLe_trans : ∀ a b c : GoString, bytesLe a b = true → bytesLe b c = true →
    bytesLe a c = true
  | [], _, _ => fun _ _ => rfl
  | _ :: _, [], _ => fun h _ => by simp [bytesLe] at h
  | _ :: _, _ :: _, [] => fun _ h => by simp [bytesLe] at h
  | a :: as, b :: bs, c :: cs => by
    simp only [bytesLe, Bool.or_eq_true, Bool.and_eq_true, decide_eq_true_eq]
    intro h1 h2
    rcases h1 with h1 | ⟨h1, h1r⟩
    · rcases h2 with h2 | ⟨h2, _⟩
      · exact Or.inl (by omega)
      · exact Or.inl (by omega)
    · rcases h2 with h2 | ⟨h2, h2r⟩
      · exact Or.inl (by omega)
      · exact Or.inr ⟨by omega, bytesLe_trans as bs cs h1r h2r⟩

theorem bytesLe_antisymm : ∀ a b : GoString, bytesLe a b = true → bytesLe b a = true → a = b
  | [], [] => fun _ _ => rfl
  | [], _ :: _ => fun _ h => by simp [bytesLe] at h
  | _ :: _, [] => fun h _ => by simp [bytesLe] at h
  | a :: as, b :: bs => by
    simp only [bytesLe, Bool.or_eq_true, Bool.and_eq_true, decide_eq_true_eq]
    intro h1 h2
    rcases h1 with h1 | ⟨h1, h1r⟩
    · rcases h2 with h2 | ⟨h2, _⟩ <;> omega
    · rcases h2 with h2 | ⟨_, h2r⟩
      · omega
      · rw [Fin.ext h1, bytesLe_antisymm as bs h1r h2r]

/-- The sorted keys are in the order of `slices.Sort`. -/
theorem sortedKeys_sorted (v : Values) :
    List.Sorted (fun a b : GoString => bytesLe a b = true) v.sortedKeys := by
  haveI : IsTotal GoString (fun a b : GoString => bytesLe a b = true) :=
    ⟨fun a b => bytesLe_total a b⟩
  haveI : IsTrans GoString (fun a b : GoString => bytesLe a b = true) :=
    ⟨fun a b c => bytesLe_trans a b c⟩
  exact List.sorted_insertionSort _ _

/-- The sorted keys are the keys of the map, each once. -/
theorem sortedKeys_perm (v : Values) : List.Perm v.sortedKeys (v.map Prod.fst).dedup :=
  List.perm_insertionSort _ _

/-- Two maps with the same keys have the same sorted keys, whatever the order in which
the keys were inserted. -/
theorem sortedKeys_congr (v1 v2 : Values)
    (hkeys : ∀ k, k ∈ v1.map Prod.fst ↔ k ∈ v2.map Prod.fst) :
    v1.sortedKeys = v2.sortedKeys := by
  haveI : IsAntisymm GoString (fun a b : GoString => bytesLe a b = true) :=
    ⟨fun a b h1 h2 => bytesLe_antisymm a b h1 h2⟩
  have hp : List.Perm (v1.map Prod.fst).dedup (v2.map Prod.fst).dedup := by
    rw [List.perm_ext_iff_of_nodup (List.nodup_dedup _) (List.nodup_dedup _)]
    intro k
    rw [List.mem_dedup, List.mem_dedup]
    exact hkeys k
  exact List.eq_of_perm_of_sorted
    (((sortedKeys_perm v1).trans hp).trans (sortedKeys_perm v2).symm)
    (sortedKeys_sorted v1) (sortedKeys_sorted v2)

/-- Two maps with the same keys and the same values have the same form encoding. -/
theorem Encode_congr (v1 v2 : Values)
    (hkeys : ∀ k, k ∈ v1.map Prod.fst ↔ k ∈ v2.map Prod.fst)
    (hvals : ∀ k, v1.lookup k = v2.lookup k) :
    v1.Encode.1 = v2.Encode.1 := by
  unfold Values.Encode formEncode
  simp only [sortedKeys_congr v1 v2 hkeys, hvals]


/-- The sorted keys are the keys of the map, each once, in the strict order of their
bytes. -/
theorem sortedKeys_spec (v : Values) :
    List.Sorted (fun a b : GoString => bytesLe a b = true ∧ a ≠ b) v.sortedKeys
      ∧ ∀ k, k ∈ v.sortedKeys ↔ k ∈ v.map Prod.fst := by
  constructor
  · have hn : v.sortedKeys.Nodup := (sortedKeys_perm v).nodup_iff.mpr (List.nodup_dedup _)
    exact List.Pairwise.and (sortedKeys_sorted v) hn
  · intro k
    rw [(sortedKeys_perm v).mem_iff, List.mem_dedup]

/-- A list of keys in the strict order of their bytes that holds the keys of the map
is the list of the sorted keys. -/
theorem sortedKeys_unique (v : Values) (keys : List GoString)
    (hs : List.Sorted (fun a b : GoString => bytesLe a b = true ∧ a ≠ b) keys)
    (hm : ∀ k, k ∈ keys ↔ k ∈ v.map Prod.fst) : keys = v.sortedKeys := by
  haveI : IsAntisymm GoString (fun a b : GoString => bytesLe a b = true) :=
    ⟨fun a b h1 h2 => bytesLe_antisymm a b h1 h2⟩
  have hn : keys.Nodup := List.Pairwise.imp (fun h => h.2) hs
  have hle : List.Sorted (fun a b : GoString => bytesLe a b = true) keys :=
    List.Pairwise.imp (fun h => h.1) hs
  have hp : List.Perm keys (v.map Prod.fst).dedup := by
    rw [List.perm_ext_iff_of_nodup hn (List.nodup_dedup _)]
    intro k
    rw [List.mem_dedup]
    exact hm k
  exact List.eq_of_perm_of_sorted (hp.trans (sortedKeys_perm v).symm) hle (sortedKeys_sorted v)

/-- C16: two requests with the same `Method`, the same `Path` and parameter
sets with the same keys and the same value list under each key give the same
bytes (and the same nil error), whatever the order in which the parameters
were inserted. The bytes returned are the three members `body`, `method` and
`relative_url`, where the member `body` is the string made of the pairs
`key=value` of a list of keys, joined by `&`, and the list holds the keys of the
map, each once, in the strict order of their bytes; read back, the member is
that string; and any list of the keys in that order gives these same bytes. -/
theorem MarshalJSON_order_independent (br1 br2 : BatchRequest)
    (hmethod : br1.Method = br2.Method) (hpath : br1.Path = br2.Path)
    (hkeys : ∀ k, k ∈ br1.Body.map Prod.fst ↔ k ∈ br2.Body.map Prod.fst)
    (hvals : ∀ k, Values.lookup br1.Body k = Values.lookup br2.Body k) :
    br1.MarshalJSON.1 = br2.MarshalJSON.1
    ∧ (∃ keys : List GoString,
        List.Sorted (fun a b : GoString => bytesLe a b = true ∧ a ≠ b) keys
        ∧ (∀ k, k ∈ keys ↔ k ∈ br1.Body.map Prod.fst)
        ∧ br1.MarshalJSON.1.1
            = String.mk ('{' :: ((encodeString (utf8 "body")
                ++ ':' :: encodeString (formEncode keys br1.Body)
                ++ ',' :: (encodeString (utf8 "method") ++ ':' :: encodeString br1.Method
                  ++ ',' :: (encodeString (utf8 "relative_url")
                    ++ ':' :: encodeString br1.Path)))
                ++ ['}']))
        ∧ parseJSON br1.MarshalJSON.1.1
            = some (Json.obj
                [ ("body", Json.str (GoString.text (formEncode keys br1.Body))),
                  ("method", Json.str (GoString.text br1.Method)),
                  ("relative_url", Json.str (GoString.text br1.Path)) ])
        ∧ utf8 (GoString.text (formEncode keys br1.Body)) = formEncode keys br1.Body)
    ∧ (∀ keys : List GoString,
        List.Sorted (fun a b : GoString => bytesLe a b = true ∧ a ≠ b) keys →
        (∀ k, k ∈ keys ↔ k ∈ br1.Body.map Prod.fst) →
        parseJSON br2.MarshalJSON.1.1
            = some (Json.obj
                [ ("body", Json.str (GoString.text (formEncode keys br1.Body))),
                  ("method", Json.str (GoString.text br1.Method)),
                  ("relative_url", Json.str (GoString.text br1.Path)) ])) := by
  have he := Encode_congr br1.Body br2.Body hkeys hvals
  have hout : br1.MarshalJSON.1 = br2.MarshalJSON.1 := by
    unfold BatchRequest.MarshalJSON marshalStruct
    simp only [typeFields_batchRequest, he, hmethod, hpath]
  refine ⟨hout, ⟨br1.Body.sortedKeys, (sortedKeys_spec br1.Body).1, (sortedKeys_spec br1.Body).2,
    MarshalJSON_bytes br1, parseJSON_MarshalJSON br1,
    utf8_text_ascii _ (formEncode_ascii _ _)⟩, ?_⟩
  intro keys hs hm
  rw [← hout, sortedKeys_unique br1.Body keys hs hm]
  exact parseJSON_MarshalJSON br1

/-- Witness for C15: a missing body, a `null` body, an empty body, and bodies that are a
raw object or a raw array; the receiver keeps `Code = 7` and its old body. -/
theorem UnmarshalJSON_rejects_missing_body_witness :
    usedResponse.UnmarshalJSON "\x7b\"code\":200\x7d" = (usedResponse, some GoError.jsonSyntax)
    ∧ usedResponse.UnmarshalJSON "\x7b\"code\":200,\"body\":null\x7d"
        = (usedResponse, some GoError.jsonSyntax)
    ∧ usedResponse.UnmarshalJSON "\x7b\"code\":200,\"body\":\"\"\x7d"
        = (usedResponse, some GoError.jsonSyntax)
    ∧ usedResponse.UnmarshalJSON "\x7b\"code\":200,\"body\":\x7b\"id\":\"1\"\x7d\x7d"
        = (usedResponse, some (GoError.jsonType "object"))
    ∧ usedResponse.UnmarshalJSON "\x7b\"code\":200,\"body\":[1]\x7d"
        = (usedResponse, some (GoError.jsonType "array"))
    ∧ (∃ err, usedResponse.UnmarshalJSON "\x7b\"code\":200,\"body\":null\x7d"
          = (usedResponse, some err)
        ∧ ((BatchResponseTemp.unmarshal "\x7b\"code\":200,\"body\":null\x7d"
              { Code := 0, Body := "" }).2 = none → err = GoError.jsonSyntax))
    ∧ (∃ err, (BatchResponseTemp.unmarshal "\x7b\"code\":200,\"body\":[1]\x7d"
              { Code := 0, Body := "" }).2 = some err
        ∧ usedResponse.UnmarshalJSON "\x7b\"code\":200,\"body\":[1]\x7d" = (usedResponse, some err)) :=
  ⟨rfl, rfl, rfl, rfl, rfl,
    ((UnmarshalJSON_rejects_missing_body usedResponse "\x7b\"code\":200,\"body\":null\x7d"
        [("code", Json.num "200"), ("body", Json.null)] rfl).1
      (by
        intro m hm hf
        simp only [List.mem_cons, List.mem_singleton, List.not_mem_nil, or_false] at hm
        rcases hm with rfl | rfl
        · exact absurd hf (by decide)
        · exact Or.inl rfl)).2.2,
    (UnmarshalJSON_rejects_missing_body usedResponse "\x7b\"code\":200,\"body\":[1]\x7d"
        [("code", Json.num "200"), ("body", Json.arr [Json.num "1"])] rfl).2
      ⟨("body", Json.arr [Json.num "1"]), List.mem_cons_of_mem _ (List.mem_cons_self _ _),
        (by decide), fun h => Json.noConfusion h, fun _ h => Json.noConfusion h⟩⟩

/-- Counterexample for C7 as stated: the method of the request is the single byte
`0xFF`, which is not valid UTF-8. In the bytes returned the member `method` is the
escape `\ufffd`; read back it is the character U+FFFD, whose bytes `EF BF BD` are
not the method of the request. -/
theorem MarshalJSON_rewrites_invalid_method :
    rawRequest.Method = [0xFF]
    ∧ rawRequest.MarshalJSON.1
        = ("\x7b\"body\":\"\",\"method\":\"\\ufffd\",\"relative_url\":\"act_1/ads\"\x7d", none)
    ∧ parseJSON rawRequest.MarshalJSON.1.1
        = some (Json.obj
            [ ("body", Json.str ""),
              ("method", Json.str (String.mk [Char.ofNat 0xFFFD])),
              ("relative_url", Json.str "act_1/ads") ])
    ∧ utf8 (String.mk [Char.ofNat 0xFFFD]) = [0xEF, 0xBF, 0xBD]
    ∧ utf8 (String.mk [Char.ofNat 0xFFFD]) ≠ rawRequest.Method :=
  ⟨rfl, by rfl, by rfl, by decide, by decide⟩

/-- Witness for C7 (amended): a request with two parameters, whose method and path are
valid UTF-8. -/
theorem MarshalJSON_body_is_form_encoding_witness :
    adRequest.MarshalJSON.1.2 = none
    ∧ adRequest.Body.Encode.1 = utf8 "a=1&a=3&b=2"
    ∧ parseJSON adRequest.MarshalJSON.1.1
        = some (Json.obj
            [ ("body", Json.str "a=1&a=3&b=2"),
              ("method", Json.str "POST"),
              ("relative_url", Json.str "act_1/ads") ]) :=
  ⟨(MarshalJSON_body_is_form_encoding adRequest).1, by decide,
    (MarshalJSON_body_is_form_encoding adRequest).2.2.2.1 "POST" "act_1/ads"⟩

/-- Witness for C16: the same two parameters inserted in the two orders. Both requests
give the bytes written out here, with the key `a` before the key `b`. -/
theorem MarshalJSON_order_independent_witness :
    adRequest.MarshalJSON.1 = adRequestReordered.MarshalJSON.1
    ∧ adRequestReordered.MarshalJSON.1.1
        = "\x7b\"body\":\"a=1\\u0026a=3\\u0026b=2\",\"method\":\"POST\",\"relative_url\":\"act_1/ads\"\x7d"
    ∧ formEncode [utf8 "a", utf8 "b"] adRequest.Body = utf8 "a=1&a=3&b=2"
    ∧ parseJSON adRequestReordered.MarshalJSON.1.1
        = some (Json.obj
            [ ("body", Json.str (GoString.text (formEncode [utf8 "a", utf8 "b"] adRequest.Body))),
              ("method", Json.str (GoString.text adRequest.Method)),
              ("relative_url", Json.str (GoString.text adRequest.Path)) ]) :=
  ⟨(MarshalJSON_order_independent adRequest adRequestReordered rfl rfl
      (by
        intro k
        simp only [adRequest, adRequestReordered, List.map_cons, List.map_nil, List.mem_cons,
          List.mem_singleton, List.not_mem_nil, or_false]
        exact or_comm)
      (by
        intro k
        simp only [adRequest, adRequestReordered, Values.lookup]
        have hab : ¬ utf8 "a" = utf8 "b" := by decide
        have hba : ¬ utf8 "b" = utf8 "a" := by decide
        by_cases ha : utf8 "a" = k
        · subst ha; simp [hba]
        · by_cases hb : utf8 "b" = k
          · subst hb; simp [hab]
          · simp [ha, hb])).1,
    by rfl, by decide,
    (MarshalJSON_order_independent adRequest adRequestReordered rfl rfl
      (by
        intro k
        simp only [adRequest, adRequestReordered, List.map_cons, List.map_nil, List.mem_cons,
          List.mem_singleton, List.not_mem_nil, or_false]
        exact or_comm)
      (by
        intro k
        simp only [adRequest, adRequestReordered, Values.lookup]
        have hab : ¬ utf8 "a" = utf8 "b" := by decide
        have hba : ¬ utf8 "b" = utf8 "a" := by decide
        by_cases ha : utf8 "a" = k
        · subst ha; simp [hba]
        · by_cases hb : utf8 "b" = k
          · subst hb; simp [hab]
          · simp [ha, hb])).2.2 [utf8 "a", utf8 "b"] (by decide)
      (by
        intro k
        simp only [adRequest, List.map_cons, List.map_nil, List.mem_cons,
          List.mem_singleton, List.not_mem_nil, or_false]
        exact or_comm)⟩

end fb
